import Mathlib

/-!
Verification of the code-search/indexing engine of `claude-codex`
(`src/lib/advanced-codebase-index.ts` and `src/lib/codebase-index.ts`)
against its natural-language specification.

JavaScript numbers are idealised as exact real (or, where the code only
ever manipulates literal decimal constants, rational) arithmetic.  The one
place where IEEE semantics is observable to the spec claims is division by
zero: JavaScript produces `NaN` there, which we model by returning `none`
from `jsDiv`.  External capabilities (the embedding model, JSON
serialisation, SQLite's FTS engine, `git`, the filesystem and `crypto`)
are modelled as explicit parameters, mirroring the spec's "Source
Provider" / "Embedding Provider" capability boundaries.
-/

namespace AdvIdx

/-- JavaScript floating-point division, observed at the precision of the
spec claims: a zero divisor yields a non-finite result (`NaN` here, since
every use in the code has a numerator that is zero whenever the divisor
is), modelled as `none`; otherwise exact division. -/
noncomputable def jsDiv (x y : ℝ) : Option ℝ :=
  if y = 0 then none else some (x / y)

/-- The running sum `dotProduct += a[i] * b[i]` of `cosineSimilarity`
(advanced-codebase-index.ts:636-638, identical code in
codebase-index.ts:580-582).  Out-of-range reads cannot occur because the
loop is only reached when the lengths agree. -/
noncomputable def dotProduct (a b : List ℝ) : ℝ :=
  ∑ i ∈ Finset.range a.length, a.getD i 0 * b.getD i 0

/-- The running sum `normA += a[i] * a[i]` of `cosineSimilarity`. -/
noncomputable def normSum (a : List ℝ) : ℝ :=
  ∑ i ∈ Finset.range a.length, a.getD i 0 * a.getD i 0

/-- `cosineSimilarity` (advanced-codebase-index.ts:629-643, and the
word-for-word identical private method in codebase-index.ts:573-587):
mismatched lengths return 0; otherwise
`dotProduct / (Math.sqrt(normA) * Math.sqrt(normB))`, a plain JavaScript
division with no zero-divisor guard. -/
noncomputable def cosineSimilarity (a b : List ℝ) : Option ℝ :=
  if a.length ≠ b.length then some 0
  else jsDiv (dotProduct a b) (Real.sqrt (normSum a) * Real.sqrt (normSum b))

theorem normSum_nonneg (a : List ℝ) : 0 ≤ normSum a :=
  Finset.sum_nonneg fun _ _ => mul_self_nonneg _

theorem dotProduct_comm (a b : List ℝ) (h : a.length = b.length) :
    dotProduct a b = dotProduct b a := by
  unfold dotProduct
  rw [h]
  exact Finset.sum_congr rfl fun i _ => mul_comm _ _

theorem dotProduct_le_sqrt (a b : List ℝ) (h : a.length = b.length) :
    dotProduct a b ≤ Real.sqrt (normSum a) * Real.sqrt (normSum b) := by
  unfold dotProduct normSum
  rw [h]
  have hcs := Real.sum_mul_le_sqrt_mul_sqrt (Finset.range b.length)
    (fun i => a.getD i 0) (fun i => b.getD i 0)
  simpa [pow_two] using hcs

theorem neg_dotProduct_le_sqrt (a b : List ℝ) (h : a.length = b.length) :
    -dotProduct a b ≤ Real.sqrt (normSum a) * Real.sqrt (normSum b) := by
  unfold dotProduct normSum
  rw [h]
  have hcs := Real.sum_mul_le_sqrt_mul_sqrt (Finset.range b.length)
    (fun i => -a.getD i 0) (fun i => b.getD i 0)
  simp only [neg_mul, Finset.sum_neg_distrib, neg_pow, pow_two] at hcs
  simpa [pow_two, neg_neg] using hcs

end AdvIdx

/-- C1.  The claim asserts that `cosineSimilarity` returns exactly 0
("never NaN") whenever either vector has zero norm.  The code has no such
guard: for equal-length vectors with a zero norm it evaluates `0/0`, which
in JavaScript is `NaN`.  Concretely, `cosineSimilarity([0],[0])` is `NaN`,
not `0`. -/
theorem C1_counterexample :
    AdvIdx.cosineSimilarity [(0 : ℝ)] [0] ≠ some 0 := by
  simp [AdvIdx.cosineSimilarity, AdvIdx.jsDiv, AdvIdx.dotProduct, AdvIdx.normSum]

/-- C1 (amended).  `cosineSimilarity` is symmetric; returns exactly 0 when
the vectors differ in length; for equal-length vectors with both norms
nonzero it equals `dot(a,b)/(‖a‖·‖b‖)` and lies in `[-1, 1]`; but for
equal-length vectors where either norm is zero it is the non-finite result
of a division by zero (JavaScript `NaN`), not 0. -/
theorem C1_cosineSimilarity :
    ∀ a b : List ℝ,
      AdvIdx.cosineSimilarity a b = AdvIdx.cosineSimilarity b a ∧
      (a.length ≠ b.length → AdvIdx.cosineSimilarity a b = some 0) ∧
      (a.length = b.length → AdvIdx.normSum a ≠ 0 → AdvIdx.normSum b ≠ 0 →
        AdvIdx.cosineSimilarity a b =
          some (AdvIdx.dotProduct a b /
            (Real.sqrt (AdvIdx.normSum a) * Real.sqrt (AdvIdx.normSum b))) ∧
        ∀ v, AdvIdx.cosineSimilarity a b = some v → -1 ≤ v ∧ v ≤ 1) ∧
      (a.length = b.length →
        (AdvIdx.normSum a = 0 ∨ AdvIdx.normSum b = 0) →
        AdvIdx.cosineSimilarity a b = none) := by
  intro a b
  refine ⟨?_, ?_, ?_, ?_⟩
  · by_cases h : a.length = b.length
    · unfold AdvIdx.cosineSimilarity
      rw [h, AdvIdx.dotProduct_comm a b h, mul_comm]
    · have h1 : AdvIdx.cosineSimilarity a b = some 0 := by
        unfold AdvIdx.cosineSimilarity
        rw [if_pos h]
      have h2 : AdvIdx.cosineSimilarity b a = some 0 := by
        unfold AdvIdx.cosineSimilarity
        rw [if_pos (fun hb => h hb.symm)]
      rw [h1, h2]
  · intro h
    unfold AdvIdx.cosineSimilarity
    rw [if_pos h]
  · intro hlen ha hb
    have hA : 0 < AdvIdx.normSum a := lt_of_le_of_ne (AdvIdx.normSum_nonneg a) (Ne.symm ha)
    have hB : 0 < AdvIdx.normSum b := lt_of_le_of_ne (AdvIdx.normSum_nonneg b) (Ne.symm hb)
    have hden : 0 < Real.sqrt (AdvIdx.normSum a) * Real.sqrt (AdvIdx.normSum b) :=
      mul_pos (Real.sqrt_pos.2 hA) (Real.sqrt_pos.2 hB)
    have heq : AdvIdx.cosineSimilarity a b =
        some (AdvIdx.dotProduct a b /
          (Real.sqrt (AdvIdx.normSum a) * Real.sqrt (AdvIdx.normSum b))) := by
      unfold AdvIdx.cosineSimilarity AdvIdx.jsDiv
      rw [if_neg (by simpa using hlen), if_neg (ne_of_gt hden)]
    refine ⟨heq, ?_⟩
    intro v hv
    rw [heq] at hv
    have hv' : AdvIdx.dotProduct a b /
        (Real.sqrt (AdvIdx.normSum a) * Real.sqrt (AdvIdx.normSum b)) = v :=
      Option.some_inj.mp hv
    subst hv'
    constructor
    · rw [le_div_iff₀ hden]
      have := AdvIdx.neg_dotProduct_le_sqrt a b hlen
      linarith
    · rw [div_le_one hden]
      exact AdvIdx.dotProduct_le_sqrt a b hlen
  · intro hlen hz
    unfold AdvIdx.cosineSimilarity AdvIdx.jsDiv
    rw [if_neg (by simpa using hlen)]
    have : Real.sqrt (AdvIdx.normSum a) * Real.sqrt (AdvIdx.normSum b) = 0 := by
      rcases hz with h0 | h0 <;> simp [h0]
    rw [if_pos this]

/-- Witness for C1: the amended theorem evaluated at concrete vectors.
`cosineSimilarity [1] [1] = 1` (both norms 1) and
`cosineSimilarity [1] [1,1] = 0` (length mismatch). -/
theorem C1_witness :
    AdvIdx.cosineSimilarity [(1 : ℝ)] [1] = some 1 ∧
    AdvIdx.cosineSimilarity [(1 : ℝ)] [1, 1] = some 0 := by
  constructor
  · have h1 : AdvIdx.normSum [(1 : ℝ)] = 1 := by
      simp [AdvIdx.normSum]
    have h := ((C1_cosineSimilarity [(1 : ℝ)] [1]).2.2.1 rfl
      (by rw [h1]; norm_num) (by rw [h1]; norm_num)).1
    rw [h, h1]
    have hd : AdvIdx.dotProduct [(1 : ℝ)] [1] = 1 := by
      simp [AdvIdx.dotProduct]
    rw [hd]
    norm_num
  · exact (C1_cosineSimilarity [(1 : ℝ)] [1, 1]).2.1 (by simp)

namespace AdvIdx

/-! ### Data model of the advanced index (advanced-codebase-index.ts:8-41) -/

/-- `Symbol.location` (advanced-codebase-index.ts:12). -/
structure SymbolLocation where
  line : ℕ
  column : ℕ
  endLine : ℕ
  endColumn : ℕ
deriving DecidableEq

/-- `Symbol` (advanced-codebase-index.ts:9-16).  The `type` union
(`function | class | variable | import | element | attribute`) is carried
as its string tag. -/
structure Symbol where
  name : String
  type : String
  location : SymbolLocation
  context : String
  file : String
  language : String
deriving DecidableEq

/-- `Chunk.location` (advanced-codebase-index.ts:23). -/
structure ChunkLocation where
  startLine : ℕ
  endLine : ℕ
deriving DecidableEq

/-- `Chunk` (advanced-codebase-index.ts:18-27).  The optional `embedding`
field is only ever attached after chunking, never read by the code under
verification, and is omitted from the chunker's value. -/
structure Chunk where
  id : String
  content : String
  type : String
  symbols : List Symbol
  location : ChunkLocation
  file : String
  language : String
deriving DecidableEq

/-- `BM25Score` (advanced-codebase-index.ts:38-41), over an ordered field
`α` standing for JavaScript numbers. -/
structure BM25Score (α : Type) where
  score : α
  termMatches : List String
deriving DecidableEq

/-- `SearchResult` (advanced-codebase-index.ts:29-36).  `fuseAndRerank`
constructs the `chunk` field as the empty object `{} as Chunk`, modelled
as `none`. -/
structure SearchResult (α : Type) where
  chunk : Option Chunk
  lexicalScore : α
  vectorScore : α
  structuralScore : α
  fusedScore : α
  reason : String
deriving DecidableEq

/-! ### JavaScript `Map` and `Set` (insertion-ordered) -/

/-- `Map.get`: first binding of the key in insertion order. -/
def mapGet (m : List (String × β)) (k : String) : Option β :=
  (m.find? (fun p => p.1 == k)).map (·.2)

/-- `Map.set`: update in place if present, else append. -/
def mapSet (m : List (String × β)) (k : String) (v : β) : List (String × β) :=
  if m.any (fun p => p.1 == k) then
    m.map (fun p => if p.1 == k then (k, v) else p)
  else
    m ++ [(k, v)]

/-- `new Set([...])`: deduplicate keeping first occurrences, in order. -/
def insertionUnion (ls : List String) : List String :=
  ls.foldl (fun acc x => if acc.contains x then acc else acc ++ [x]) []

/-! ### Stable sorting, modelling JavaScript `Array.prototype.sort`
(stable since ES2019).  `keep y x = true` means an already-placed `y`
stays in front of the newly inserted `x`. -/

def insertStable (keep : β → β → Bool) (x : β) : List β → List β
  | [] => [x]
  | y :: ys => if keep y x then y :: insertStable keep x ys else x :: y :: ys

def stableSort (keep : β → β → Bool) (l : List β) : List β :=
  l.foldl (fun acc x => insertStable keep x acc) []

theorem insertStable_perm (keep : β → β → Bool) (x : β) :
    ∀ l : List β, List.Perm (insertStable keep x l) (x :: l) := by
  intro l
  induction l with
  | nil => simp [insertStable]
  | cons y ys ih =>
    unfold insertStable
    by_cases h : keep y x = true
    · rw [if_pos h]
      exact (ih.cons y).trans (List.Perm.swap x y ys)
    · rw [if_neg h]

theorem stableSort_aux_perm (keep : β → β → Bool) :
    ∀ (l acc : List β),
      List.Perm (l.foldl (fun acc x => insertStable keep x acc) acc) (acc ++ l) := by
  intro l
  induction l with
  | nil => intro acc; simp
  | cons x xs ih =>
    intro acc
    have h1 := ih (insertStable keep x acc)
    have h2 : List.Perm (insertStable keep x acc ++ xs) ((x :: acc) ++ xs) :=
      (insertStable_perm keep x acc).append_right xs
    have h3 : List.Perm ((x :: acc) ++ xs) (acc ++ x :: xs) := List.perm_middle.symm
    simpa using (h1.trans h2).trans h3

theorem stableSort_perm (keep : β → β → Bool) (l : List β) :
    List.Perm (stableSort keep l) l := by
  simpa using stableSort_aux_perm keep l []

theorem mem_stableSort (keep : β → β → Bool) (l : List β) (a : β) :
    a ∈ stableSort keep l ↔ a ∈ l :=
  (stableSort_perm keep l).mem_iff

theorem insertStable_pairwise (keep : β → β → Bool)
    (htot : ∀ a b, keep a b = true ∨ keep b a = true)
    (htrans : ∀ a b c, keep a b = true → keep b c = true → keep a c = true)
    (x : β) :
    ∀ l : List β, l.Pairwise (fun a b => keep a b = true) →
      (insertStable keep x l).Pairwise (fun a b => keep a b = true) := by
  intro l
  induction l with
  | nil => intro _; simp [insertStable]
  | cons y ys ih =>
    intro hp
    rw [List.pairwise_cons] at hp
    unfold insertStable
    by_cases h : keep y x = true
    · rw [if_pos h]
      rw [List.pairwise_cons]
      refine ⟨?_, ih hp.2⟩
      intro z hz
      have hz' : z ∈ x :: ys := (insertStable_perm keep x ys).mem_iff.1 hz
      rcases List.mem_cons.1 hz' with rfl | hz''
      · exact h
      · exact hp.1 z hz''
    · rw [if_neg h]
      rw [List.pairwise_cons]
      constructor
      · intro z hz
        rcases List.mem_cons.1 hz with rfl | hz'
        · rcases htot z x with h' | h'
          · exact absurd h' h
          · exact h'
        · rcases htot y x with h' | h'
          · exact absurd h' h
          · exact htrans x y z h' (hp.1 z hz')
      · rw [List.pairwise_cons]
        exact hp
    
theorem stableSort_pairwise (keep : β → β → Bool)
    (htot : ∀ a b, keep a b = true ∨ keep b a = true)
    (htrans : ∀ a b c, keep a b = true → keep b c = true → keep a c = true)
    (l : List β) :
    (stableSort keep l).Pairwise (fun a b => keep a b = true) := by
  suffices h : ∀ (l acc : List β), acc.Pairwise (fun a b => keep a b = true) →
      (l.foldl (fun acc x => insertStable keep x acc) acc).Pairwise
        (fun a b => keep a b = true) by
    exact h l [] (by simp)
  intro l
  induction l with
  | nil => intro acc h; simpa using h
  | cons x xs ih =>
    intro acc h
    exact ih _ (insertStable_pairwise keep htot htrans x acc h)

theorem filter_insertStable_of_neg (keep : β → β → Bool) (p : β → Bool)
    (x : β) (hx : p x = false) :
    ∀ l : List β, (insertStable keep x l).filter p = l.filter p := by
  intro l
  induction l with
  | nil => simp [insertStable, hx]
  | cons y ys ih =>
    unfold insertStable
    by_cases h : keep y x = true
    · rw [if_pos h]
      simp only [List.filter_cons]
      rw [ih]
    · rw [if_neg h]
      simp [List.filter_cons, hx]

theorem filter_insertStable_of_pos (keep : β → β → Bool) (p : β → Bool)
    (htrans : ∀ a b c, keep a b = true → keep b c = true → keep a c = true)
    (hpk : ∀ a b, p a = true → p b = true → keep a b = true)
    (x : β) (hx : p x = true) :
    ∀ l : List β, l.Pairwise (fun a b => keep a b = true) →
      (insertStable keep x l).filter p = l.filter p ++ [x] := by
  intro l
  induction l with
  | nil => simp [insertStable, hx]
  | cons y ys ih =>
    intro hl
    rw [List.pairwise_cons] at hl
    unfold insertStable
    by_cases h : keep y x = true
    · rw [if_pos h]
      simp only [List.filter_cons]
      rw [ih hl.2]
      by_cases hy : p y = true
      · simp [hy]
      · simp [Bool.eq_false_iff.2 (fun hc => hy hc)]
    · rw [if_neg h]
      have hnone : (y :: ys).filter p = [] := by
        rw [List.filter_eq_nil_iff]
        intro z hz
        intro hpz
        rcases List.mem_cons.1 hz with rfl | hz'
        · exact h (hpk z x hpz hx)
        · exact h (htrans y z x (hl.1 z hz') (hpk z x hpz hx))
      rw [List.filter_cons, if_pos hx, hnone]
      simp

theorem stableSort_filter (keep : β → β → Bool) (p : β → Bool)
    (htot : ∀ a b, keep a b = true ∨ keep b a = true)
    (htrans : ∀ a b c, keep a b = true → keep b c = true → keep a c = true)
    (hpk : ∀ a b, p a = true → p b = true → keep a b = true)
    (l : List β) :
    (stableSort keep l).filter p = l.filter p := by
  suffices h : ∀ (l acc : List β), acc.Pairwise (fun a b => keep a b = true) →
      (l.foldl (fun acc x => insertStable keep x acc) acc).filter p =
        acc.filter p ++ l.filter p by
    simpa using h l [] (by simp)
  intro l
  induction l with
  | nil => intro acc _; simp
  | cons x xs ih =>
    intro acc hacc
    have hs := insertStable_pairwise keep htot htrans x acc hacc
    rw [List.foldl_cons, ih _ hs]
    by_cases hx : p x = true
    · rw [filter_insertStable_of_pos keep p htrans hpk x hx acc hacc]
      simp [List.filter_cons, hx]
    · rw [filter_insertStable_of_neg keep p x (Bool.eq_false_iff.2 (fun hc => hx hc)) acc]
      simp [List.filter_cons, Bool.eq_false_iff.2 (fun hc => hx hc)]

/-! ### Fusion / rerank (advanced-codebase-index.ts:508-568).
JavaScript numbers are idealised as an arbitrary linear ordered field so
that the same definitions can be run both at `ℚ` (for decidable concrete
evaluation) and at `ℝ` (inside the search pipeline). -/

variable {α : Type} [LinearOrderedField α]

/-- `Math.min` on two finite numbers. -/
def jsMin (a b : α) : α :=
  if a ≤ b then a else b

/-- `Math.max` on two finite numbers. -/
def jsMax (a b : α) : α :=
  if a ≤ b then b else a

theorem jsMin_eq_min (a b : α) : jsMin a b = min a b :=
  (min_def a b).symm

theorem jsMax_eq_max (a b : α) : jsMax a b = max a b := by
  rw [jsMax, max_def]

/-- `normalizeScore` (advanced-codebase-index.ts:552-554):
`Math.max(0, Math.min(1, (score - min) / (max - min)))`. -/
def normalizeScore (score mn mx : α) : α :=
  jsMax 0 (jsMin 1 ((score - mn) / (mx - mn)))

/-- `explainScore` (advanced-codebase-index.ts:556-568). -/
def explainScore (lexical : Option (BM25Score α)) (vector structural : α) : String :=
  let e1 : List String :=
    match lexical with
    | some l =>
        if 0 < l.score then
          ["text match (" ++ String.intercalate ", " l.termMatches ++ ")"]
        else []
    | none => []
  let e2 : List String := if 3 / 10 < vector then ["semantic similarity"] else []
  let e3 : List String := if 0 < structural then ["structural match"] else []
  let explanations := e1 ++ e2 ++ e3
  if explanations = [] then "general relevance"
  else String.intercalate ", " explanations

/-- The per-candidate score reads of the `fuseAndRerank` loop
(advanced-codebase-index.ts:522-525): `lexical.get(chunkId)?.score || 0`
and the two `|| 0` defaults. -/
def lexScoreOf (lexical : List (String × BM25Score α)) (cid : String) : α :=
  match mapGet lexical cid with
  | some l => l.score
  | none => 0

def vecScoreOf (vector : List (String × α)) (cid : String) : α :=
  (mapGet vector cid).getD 0

def strucScoreOf (structural : List (String × α)) (cid : String) : α :=
  (mapGet structural cid).getD 0

/-- The weighted fusion (advanced-codebase-index.ts:527-532):
`0.3 * normalizeScore(lexicalScore, 0, 10) + 0.4 * vectorScore +
0.3 * structuralScore`. -/
def fusedScoreOf (lexical : List (String × BM25Score α))
    (vector structural : List (String × α)) (cid : String) : α :=
  3 / 10 * normalizeScore (lexScoreOf lexical cid) 0 10 +
    2 / 5 * vecScoreOf vector cid +
    3 / 10 * strucScoreOf structural cid

/-- The `SearchResult` object pushed by the `fuseAndRerank` loop
(advanced-codebase-index.ts:535-542); `chunk` is built as the empty
placeholder `{} as Chunk` ("will be filled in later" — it never is). -/
def mkResult (lexical : List (String × BM25Score α))
    (vector structural : List (String × α)) (cid : String) : SearchResult α :=
  { chunk := none
    lexicalScore := lexScoreOf lexical cid
    vectorScore := vecScoreOf vector cid
    structuralScore := strucScoreOf structural cid
    fusedScore := fusedScoreOf lexical vector structural cid
    reason := explainScore (mapGet lexical cid) (vecScoreOf vector cid)
      (strucScoreOf structural cid) }

/-- `allChunkIds` (advanced-codebase-index.ts:514-518): a `Set` built from
the keys of the three maps, iterated in insertion order. -/
def candidateIds (lexical : List (String × BM25Score α))
    (vector structural : List (String × α)) : List String :=
  insertionUnion (lexical.map (·.1) ++ vector.map (·.1) ++ structural.map (·.1))

/-- The `results` array right before sorting: one entry per candidate id
whose fused score exceeds 0.1 (advanced-codebase-index.ts:520-544). -/
def fusedCandidates (lexical : List (String × BM25Score α))
    (vector structural : List (String × α)) (query : String) : List (SearchResult α) :=
  (candidateIds lexical vector structural).filterMap fun cid =>
    let r := mkResult lexical vector structural cid
    if 1 / 10 < r.fusedScore then some r else none

/-- `fuseAndRerank` (advanced-codebase-index.ts:508-550): build the
filtered candidate list, then `results.sort((a, b) => b.fusedScore -
a.fusedScore)` — a stable descending sort on the fused score. -/
def fuseAndRerank (lexical : List (String × BM25Score α))
    (vector structural : List (String × α)) (query : String) : List (SearchResult α) :=
  stableSort (fun a b => decide (b.fusedScore ≤ a.fusedScore))
    (fusedCandidates lexical vector structural query)

/-- The ordering the claim describes, written from the claim's words (for
comparison only, not from the source): candidates sorted descending by
fused score with ties broken by ascending chunk id. -/
def claimFuseAndRerank (lexical : List (String × BM25Score α))
    (vector structural : List (String × α)) (query : String) : List (SearchResult α) :=
  let pairs := (candidateIds lexical vector structural).filterMap fun cid =>
    let r := mkResult lexical vector structural cid
    if 1 / 10 < r.fusedScore then some (cid, r) else none
  (stableSort (fun a b =>
      decide (b.2.fusedScore < a.2.fusedScore ∨
        (b.2.fusedScore = a.2.fusedScore ∧ a.1 ≤ b.1))) pairs).map (·.2)

end AdvIdx

/-- C3.  The fused-score formula and the `> 0.1` drop rule hold, but the
returned order breaks ties by the candidate enumeration order (lexical
results first, then vector-only, then structural-only candidates), not by
chunk id: with a lexical candidate `"b"` (BM25 score 10) and a vector
candidate `"a"` (similarity 0.75) both fusing to 0.3, the code returns the
`"b"` entry first, while the claimed id tie-break would return the `"a"`
entry first. -/
theorem C3_counterexample :
    AdvIdx.fuseAndRerank (α := ℚ) [("b", ⟨10, []⟩)] [("a", 3 / 4)] [] "q" ≠
      AdvIdx.claimFuseAndRerank (α := ℚ) [("b", ⟨10, []⟩)] [("a", 3 / 4)] [] "q" ∧
    (AdvIdx.fuseAndRerank (α := ℚ) [("b", ⟨10, []⟩)] [("a", 3 / 4)] [] "q").map
      (fun r => r.fusedScore) = [3 / 10, 3 / 10] ∧
    (AdvIdx.fuseAndRerank (α := ℚ) [("b", ⟨10, []⟩)] [("a", 3 / 4)] [] "q").map
      (fun r => r.lexicalScore) = [10, 0] ∧
    (AdvIdx.claimFuseAndRerank (α := ℚ) [("b", ⟨10, []⟩)] [("a", 3 / 4)] [] "q").map
      (fun r => r.lexicalScore) = [0, 10] := by
  have hf : (AdvIdx.fuseAndRerank (α := ℚ) [("b", ⟨10, []⟩)] [("a", 3 / 4)] [] "q").map
      (fun r => r.lexicalScore) = [10, 0] := by
    simp +decide [AdvIdx.fuseAndRerank, AdvIdx.fusedCandidates, AdvIdx.candidateIds,
      AdvIdx.insertionUnion, AdvIdx.mkResult, AdvIdx.fusedScoreOf, AdvIdx.lexScoreOf,
      AdvIdx.vecScoreOf, AdvIdx.strucScoreOf, AdvIdx.mapGet, AdvIdx.normalizeScore,
      AdvIdx.jsMax, AdvIdx.jsMin, AdvIdx.stableSort, AdvIdx.insertStable,
      List.find?, List.foldl, List.filterMap]
    norm_num [AdvIdx.insertStable, List.foldl]
  have hs : (AdvIdx.fuseAndRerank (α := ℚ) [("b", ⟨10, []⟩)] [("a", 3 / 4)] [] "q").map
      (fun r => r.fusedScore) = [3 / 10, 3 / 10] := by
    simp +decide [AdvIdx.fuseAndRerank, AdvIdx.fusedCandidates, AdvIdx.candidateIds,
      AdvIdx.insertionUnion, AdvIdx.mkResult, AdvIdx.fusedScoreOf, AdvIdx.lexScoreOf,
      AdvIdx.vecScoreOf, AdvIdx.strucScoreOf, AdvIdx.mapGet, AdvIdx.normalizeScore,
      AdvIdx.jsMax, AdvIdx.jsMin, AdvIdx.stableSort, AdvIdx.insertStable,
      List.find?, List.foldl, List.filterMap]
    norm_num [AdvIdx.insertStable, List.foldl]
  have hc : (AdvIdx.claimFuseAndRerank (α := ℚ) [("b", ⟨10, []⟩)] [("a", 3 / 4)] [] "q").map
      (fun r => r.lexicalScore) = [0, 10] := by
    simp +decide [AdvIdx.claimFuseAndRerank, AdvIdx.candidateIds,
      AdvIdx.insertionUnion, AdvIdx.mkResult, AdvIdx.fusedScoreOf, AdvIdx.lexScoreOf,
      AdvIdx.vecScoreOf, AdvIdx.strucScoreOf, AdvIdx.mapGet, AdvIdx.normalizeScore,
      AdvIdx.jsMax, AdvIdx.jsMin, AdvIdx.stableSort, AdvIdx.insertStable,
      List.find?, List.foldl, List.filterMap]
    norm_num [AdvIdx.insertStable, List.foldl]
    rw [if_neg (by decide)]
    simp
  refine ⟨?_, hs, hf, hc⟩
  intro h
  rw [h] at hf
  have h10 : (0 : ℚ) = 10 ∧ (10 : ℚ) = 0 := by simpa using hc.symm.trans hf
  exact absurd h10.1 (by norm_num)

/-- C3 (amended).  For every candidate id in the union of the three result
sets, the fused score is `0.3 * clamp(lex/10, 0, 1) + 0.4 * vec +
0.3 * struct`; a candidate appears in the returned list iff its fused
score exceeds 0.1; the list is sorted descending by fused score; and ties
keep the candidate enumeration order (the stable-sort order of the
pre-sort list), not chunk-id order. -/
theorem C3_fuseAndRerank {α : Type} [LinearOrderedField α]
    (lexical : List (String × AdvIdx.BM25Score α))
    (vector structural : List (String × α)) (query : String) :
    (∀ cid, AdvIdx.fusedScoreOf lexical vector structural cid =
      3 / 10 * max 0 (min 1 (AdvIdx.lexScoreOf lexical cid / 10)) +
        2 / 5 * AdvIdx.vecScoreOf vector cid +
        3 / 10 * AdvIdx.strucScoreOf structural cid) ∧
    (∀ r, r ∈ AdvIdx.fuseAndRerank lexical vector structural query ↔
      ∃ cid ∈ AdvIdx.candidateIds lexical vector structural,
        r = AdvIdx.mkResult lexical vector structural cid ∧
        1 / 10 < r.fusedScore) ∧
    (AdvIdx.fuseAndRerank lexical vector structural query).Pairwise
      (fun a b => b.fusedScore ≤ a.fusedScore) ∧
    (∀ v, (AdvIdx.fuseAndRerank lexical vector structural query).filter
        (fun r => decide (r.fusedScore = v)) =
      (AdvIdx.fusedCandidates lexical vector structural query).filter
        (fun r => decide (r.fusedScore = v))) := by
  have htot : ∀ a b : AdvIdx.SearchResult α,
      (decide (b.fusedScore ≤ a.fusedScore)) = true ∨
      (decide (a.fusedScore ≤ b.fusedScore)) = true := by
    intro a b
    rcases le_total b.fusedScore a.fusedScore with h | h
    · exact Or.inl (decide_eq_true h)
    · exact Or.inr (decide_eq_true h)
  have htrans : ∀ a b c : AdvIdx.SearchResult α,
      (decide (b.fusedScore ≤ a.fusedScore)) = true →
      (decide (c.fusedScore ≤ b.fusedScore)) = true →
      (decide (c.fusedScore ≤ a.fusedScore)) = true := by
    intro a b c h1 h2
    exact decide_eq_true (le_trans (of_decide_eq_true h2) (of_decide_eq_true h1))
  refine ⟨?_, ?_, ?_, ?_⟩
  · intro cid
    simp [AdvIdx.fusedScoreOf, AdvIdx.normalizeScore, AdvIdx.jsMax_eq_max,
      AdvIdx.jsMin_eq_min, sub_zero]
  · intro r
    rw [AdvIdx.fuseAndRerank, AdvIdx.mem_stableSort, AdvIdx.fusedCandidates,
      List.mem_filterMap]
    constructor
    · rintro ⟨cid, hmem, hf⟩
      by_cases hc : 1 / 10 < (AdvIdx.mkResult lexical vector structural cid).fusedScore
      · rw [if_pos hc] at hf
        have hr : AdvIdx.mkResult lexical vector structural cid = r := Option.some_inj.mp hf
        exact ⟨cid, hmem, hr.symm, by rw [← hr]; exact hc⟩
      · rw [if_neg hc] at hf
        exact absurd hf (by simp)
    · rintro ⟨cid, hmem, hr, hsc⟩
      refine ⟨cid, hmem, ?_⟩
      rw [if_pos (by rw [← hr]; exact hsc)]
      rw [hr]
  · have := AdvIdx.stableSort_pairwise
      (fun a b : AdvIdx.SearchResult α => decide (b.fusedScore ≤ a.fusedScore))
      htot htrans (AdvIdx.fusedCandidates lexical vector structural query)
    rw [AdvIdx.fuseAndRerank]
    exact this.imp fun h => of_decide_eq_true h
  · intro v
    rw [AdvIdx.fuseAndRerank]
    refine AdvIdx.stableSort_filter _ _ htot htrans ?_ _
    intro a b ha hb
    have ha' : a.fusedScore = v := of_decide_eq_true ha
    have hb' : b.fusedScore = v := of_decide_eq_true hb
    exact decide_eq_true (by rw [ha', hb'])

/-- Witness for C3: the amended theorem applied at the concrete inputs of
the counterexample, instantiated at `ℚ`. -/
theorem C3_witness :
    (AdvIdx.fuseAndRerank (α := ℚ) [("b", ⟨10, []⟩)] [("a", 3 / 4)] [] "q").Pairwise
      (fun a b => b.fusedScore ≤ a.fusedScore) :=
  (C3_fuseAndRerank [("b", ⟨10, []⟩)] [("a", 3 / 4)] [] "q").2.2.1

namespace AdvIdx

/-! ### String helpers shared by the chunker and the search heuristics. -/

/-- The single-quote character (written via its code point). -/
def squote : Char := Char.ofNat 39

/-- The double-quote character (written via its code point). -/
def dquote : Char := Char.ofNat 34

/-- Substring containment on character lists; `hay.includes(needle)` is
`hasInfix needle hay`. -/
def hasInfix (needle : List Char) : List Char → Bool
  | [] => needle.isEmpty
  | c :: rest => needle.isPrefixOf (c :: rest) || hasInfix needle rest

/-- JavaScript `haystack.includes(needle)` on strings. -/
def jsIncludes (haystack needle : String) : Bool :=
  hasInfix needle.data haystack.data

/-- `str.split(/\s+/)`: whitespace runs are single separators; a leading
or trailing run contributes an empty-string element, as in JavaScript. -/
def jsSplitWsAux : List Char → List Char → List String
  | cur, [] => [String.mk cur.reverse]
  | cur, c :: rest =>
    if c.isWhitespace then
      String.mk cur.reverse :: jsSplitWsAux [] (rest.dropWhile Char.isWhitespace)
    else
      jsSplitWsAux (c :: cur) rest
termination_by _ l => l.length
decreasing_by
  · exact Nat.lt_succ_of_le (List.dropWhile_sublist Char.isWhitespace).length_le
  · simp

def jsSplitWs (s : String) : List String :=
  jsSplitWsAux [] s.data

/-- `str.split('\n')`: split on each newline; a trailing newline yields a
trailing empty string, and the empty string yields `[""]`, as in
JavaScript. -/
def jsSplitNlAux : List Char → List Char → List String
  | cur, [] => [String.mk cur.reverse]
  | cur, c :: rest =>
    if c == '\n' then String.mk cur.reverse :: jsSplitNlAux [] rest
    else jsSplitNlAux (c :: cur) rest

def jsSplitNl (s : String) : List String :=
  jsSplitNlAux [] s.data

/-- `str.toLowerCase()` (ASCII, which is all the compared literals use). -/
def asciiLower (s : String) : String :=
  String.mk (s.data.map Char.toLower)

/-- Number of newline characters in a character list;
`s.split('\n').length` is `newlineCount s.data + 1`. -/
def newlineCount (cs : List Char) : ℕ :=
  cs.countP (fun c => c == '\n')

/-- The 1-based line number of byte index `i`:
`content.substring(0, i).split('\n').length`. -/
def lineOfIndex (cs : List Char) (i : ℕ) : ℕ :=
  newlineCount (cs.take i) + 1

/-- Node's `path.extname`: the extension (with dot) of the basename, empty
for dotless names and for hidden files whose only dot is leading. -/
def extname (p : String) : String :=
  let base := (p.data.reverse.takeWhile (fun c => c != '/')).reverse
  let afterDot := base.reverse.takeWhile (fun c => c != '.')
  if afterDot.length = base.length then ""
  else if afterDot.length + 1 = base.length then ""
  else String.mk ('.' :: afterDot.reverse)

/-- `detectLanguage` (advanced-codebase-index.ts:582-599). -/
def detectLanguage (filePath : String) : String :=
  let ext := asciiLower (extname filePath)
  if ext = ".html" then "html"
  else if ext = ".htm" then "html"
  else if ext = ".js" then "javascript"
  else if ext = ".jsx" then "javascript"
  else if ext = ".ts" then "typescript"
  else if ext = ".tsx" then "typescript"
  else if ext = ".css" then "css"
  else if ext = ".scss" then "css"
  else if ext = ".md" then "markdown"
  else if ext = ".json" then "json"
  else if ext = ".yml" then "yaml"
  else if ext = ".yaml" then "yaml"
  else "text"

/-! ### Generic fallback chunker (advanced-codebase-index.ts:376-396) -/

/-- The `for (let i = 0; i < lines.length; i += chunkSize)` loop of
`parseGenericChunks`, with `chunkSize = 50`. -/
def genericChunkLoop (filePath language : String) (lines : List String) (i : ℕ) :
    List Chunk :=
  if i < lines.length then
    let endLine := min (i + 50) lines.length
    { id := filePath ++ ":" ++ toString (i + 1) ++ "-" ++ toString endLine ++ ":block"
      content := String.intercalate "\n" ((lines.drop i).take (endLine - i))
      type := "block"
      symbols := []
      location := { startLine := i + 1, endLine := endLine }
      file := filePath
      language := language } :: genericChunkLoop filePath language lines (i + 50)
  else []
termination_by lines.length - i
decreasing_by omega

/-- `parseGenericChunks` (advanced-codebase-index.ts:376-396).  The
`content` argument is unused by the source as well; each chunk's language
is recomputed from the file path. -/
def parseGenericChunks (content filePath : String) (lines : List String) : List Chunk :=
  genericChunkLoop filePath (detectLanguage filePath) lines 0

/-! ### Pattern scanners.  Each `...At` function decides a regex match
anchored at the head of the character list, returning the match length and
the captured group; `scanAll` sweeps a matcher across the text the way a
global `RegExp.exec` loop does (continuing after each match). -/

def scanAll {γ : Type} (f : List Char → Option (ℕ × γ)) :
    List Char → ℕ → List (ℕ × ℕ × γ)
  | [], _ => []
  | c :: rest, i =>
    match f (c :: rest) with
    | some (len, cap) =>
      if h : len = 0 then scanAll f rest (i + 1)
      else (i, len, cap) :: scanAll f ((c :: rest).drop len) (i + len)
    | none => scanAll f rest (i + 1)
termination_by cs => cs.length
decreasing_by
  all_goals simp only [List.length_drop, List.length_cons]
  all_goals omega

/-- Case-insensitive literal prefix test (ASCII, as the `i` regex flag). -/
def matchesCI : List Char → List Char → Bool
  | [], _ => true
  | _ :: _, [] => false
  | p :: ps, c :: cs => (p.toLower == c.toLower) && matchesCI ps cs

/-- Index of the first position satisfying `p` (on nonempty suffixes). -/
def findPos (p : List Char → Bool) : List Char → Option ℕ
  | [] => none
  | c :: rest => if p (c :: rest) then some 0 else (findPos p rest).map (· + 1)

/-- Match `<tag[^>]*>(.*?)</tag>` (flags `gis`) at the head of `cs`,
returning (match length, inner capture). -/
def tagMatchAt (tagName : List Char) (cs : List Char) : Option (ℕ × List Char) :=
  let openPat := '<' :: tagName
  if matchesCI openPat cs then
    let rest := cs.drop openPat.length
    let attrs := rest.takeWhile (fun c => c != '>')
    match rest.drop attrs.length with
    | '>' :: body =>
      let closePat := '<' :: '/' :: (tagName ++ ['>'])
      match findPos (matchesCI closePat) body with
      | some i => some (openPat.length + attrs.length + 1 + i + closePat.length, body.take i)
      | none => none
    | _ => none
  else none

/-- Digit class `[1-6]`. -/
def isDigit16 (d : Char) : Bool :=
  ('1' ≤ d) && (d ≤ '6')

/-- Does `cs` start with a closing tag `</h[1-6]>` (case-insensitive)? -/
def isHClose (cs : List Char) : Bool :=
  match cs with
  | '<' :: '/' :: c :: d :: '>' :: _ => (c.toLower == 'h') && isDigit16 d
  | _ => false

/-- Match `<h[1-6][^>]*>(.*?)</h[1-6]>` (flags `gis`) at the head. -/
def hMatchAt (cs : List Char) : Option (ℕ × List Char) :=
  match cs with
  | '<' :: c :: d :: rest0 =>
    if (c.toLower == 'h') && isDigit16 d then
      let attrs := rest0.takeWhile (fun x => x != '>')
      match rest0.drop attrs.length with
      | '>' :: body =>
        match findPos isHClose body with
        | some i => some (3 + attrs.length + 1 + i + 5, body.take i)
        | none => none
      | _ => none
    else none
  | _ => none

/-- One entry of the `elementPatterns` table
(advanced-codebase-index.ts:241-247). -/
structure HtmlPattern where
  matchAt : List Char → Option (ℕ × List Char)
  type : String
  symbolType : String

/-- The five HTML element patterns, in source order. -/
def htmlPatterns : List HtmlPattern :=
  [ ⟨tagMatchAt "title".data, "element", "element"⟩,
    ⟨hMatchAt, "element", "element"⟩,
    ⟨tagMatchAt "header".data, "element", "element"⟩,
    ⟨tagMatchAt "nav".data, "element", "element"⟩,
    ⟨tagMatchAt "script".data, "block", "function"⟩ ]

/-- The chunk built for one HTML pattern match
(advanced-codebase-index.ts:250-281). -/
def htmlChunkOfMatch (filePath : String) (content : List Char) (ty symTy : String)
    (m : ℕ × ℕ × List Char) : Chunk :=
  let idx := m.1
  let len := m.2.1
  let inner := m.2.2
  let matchContent := (content.drop idx).take len
  let innerText := (String.mk inner).trim
  let startLine := lineOfIndex content idx
  let endLine := startLine + newlineCount matchContent
  let symbols : List Symbol :=
    if innerText = "" then []
    else
      [{ name := String.mk (innerText.data.take 50)
         type := symTy
         location := { line := startLine, column := 0, endLine := endLine, endColumn := 0 }
         context := String.mk matchContent
         file := filePath
         language := "html" }]
  { id := filePath ++ ":" ++ toString startLine ++ "-" ++ toString endLine ++ ":" ++ ty
    content := String.mk matchContent
    type := ty
    symbols := symbols
    location := { startLine := startLine, endLine := endLine }
    file := filePath
    language := "html" }

/-- `parseHTMLChunks` (advanced-codebase-index.ts:237-290). -/
def parseHTMLChunks (content filePath : String) (lines : List String) : List Chunk :=
  let chunks := (htmlPatterns.map fun pt =>
    (scanAll pt.matchAt content.data 0).map
      (htmlChunkOfMatch filePath content.data pt.type pt.symbolType)).flatten
  if chunks.length = 0 then parseGenericChunks content filePath lines else chunks

/-! ### JavaScript/TypeScript pattern matchers
(advanced-codebase-index.ts:296-301). -/

/-- `\w` (word character). -/
def isWordChar (c : Char) : Bool :=
  c.isAlphanum || c == '_'

/-- `\s` (whitespace). -/
def isWsChar (c : Char) : Bool :=
  c.isWhitespace

/-- Match `function\s+(\w+)\s*\([^)]*\)\s*\{` at the head. -/
def matchFunctionAt (cs : List Char) : Option (ℕ × List Char) :=
  if "function".data.isPrefixOf cs then
    let r1 := cs.drop 8
    let ws1 := r1.takeWhile isWsChar
    if ws1.length = 0 then none
    else
      let r2 := r1.drop ws1.length
      let name := r2.takeWhile isWordChar
      if name.length = 0 then none
      else
        let r3 := r2.drop name.length
        let ws2 := r3.takeWhile isWsChar
        match r3.drop ws2.length with
        | '(' :: r5 =>
          let args := r5.takeWhile (fun c => c != ')')
          match r5.drop args.length with
          | ')' :: r7 =>
            let ws3 := r7.takeWhile isWsChar
            match r7.drop ws3.length with
            | '{' :: _ =>
              some (8 + ws1.length + name.length + ws2.length + 1 + args.length + 1 +
                ws3.length + 1, name)
            | _ => none
          | _ => none
        | _ => none
  else none

/-- Match `class\s+(\w+)(?:\s+extends\s+\w+)?\s*\{` at the head; the
optional `extends` group is tried first, as regex backtracking does. -/
def matchClassAt (cs : List Char) : Option (ℕ × List Char) :=
  if "class".data.isPrefixOf cs then
    let r1 := cs.drop 5
    let ws1 := r1.takeWhile isWsChar
    if ws1.length = 0 then none
    else
      let r2 := r1.drop ws1.length
      let name := r2.takeWhile isWordChar
      if name.length = 0 then none
      else
        let r3 := r2.drop name.length
        let base := 5 + ws1.length + name.length
        let withExt : Option ℕ :=
          let wsE := r3.takeWhile isWsChar
          if wsE.length = 0 then none
          else
            let rE := r3.drop wsE.length
            if "extends".data.isPrefixOf rE then
              let rE2 := rE.drop 7
              let wsE2 := rE2.takeWhile isWsChar
              if wsE2.length = 0 then none
              else
                let rE3 := rE2.drop wsE2.length
                let ename := rE3.takeWhile isWordChar
                if ename.length = 0 then none
                else
                  let rE4 := rE3.drop ename.length
                  let wsB := rE4.takeWhile isWsChar
                  match rE4.drop wsB.length with
                  | '{' :: _ =>
                    some (base + wsE.length + 7 + wsE2.length + ename.length + wsB.length + 1)
                  | _ => none
            else none
        match withExt with
        | some len => some (len, name)
        | none =>
          let wsB := r3.takeWhile isWsChar
          match r3.drop wsB.length with
          | '{' :: _ => some (base + wsB.length + 1, name)
          | _ => none
  else none

/-- Match `const\s+(\w+)\s*=` at the head. -/
def matchConstAt (cs : List Char) : Option (ℕ × List Char) :=
  if "const".data.isPrefixOf cs then
    let r1 := cs.drop 5
    let ws1 := r1.takeWhile isWsChar
    if ws1.length = 0 then none
    else
      let r2 := r1.drop ws1.length
      let name := r2.takeWhile isWordChar
      if name.length = 0 then none
      else
        let r3 := r2.drop name.length
        let ws2 := r3.takeWhile isWsChar
        match r3.drop ws2.length with
        | '=' :: _ => some (5 + ws1.length + name.length + ws2.length + 1, name)
        | _ => none
  else none

/-- Match `from\s+['"][^'"]+['"]` at the head, returning the length. -/
def matchFromAt (cs : List Char) : Option ℕ :=
  if "from".data.isPrefixOf cs then
    let r1 := cs.drop 4
    let ws := r1.takeWhile isWsChar
    if ws.length = 0 then none
    else
      match r1.drop ws.length with
      | q :: r3 =>
        if q == squote || q == dquote then
          let body := r3.takeWhile (fun c => c != squote && c != dquote)
          if body.length = 0 then none
          else
            match r3.drop body.length with
            | q2 :: _ =>
              if q2 == squote || q2 == dquote then
                some (4 + ws.length + 1 + body.length + 1)
              else none
            | _ => none
        else none
      | _ => none
  else none

/-- Match `import.*from\s+['"][^'"]+['"]` at the head.  The greedy `.*`
cannot cross a newline; backtracking selects the rightmost `from` clause
on the `import` line that completes the match.  The whole match is the
"capture" because the pattern has no group (`match[1] || match[0]`). -/
def matchImportAt (cs : List Char) : Option (ℕ × List Char) :=
  if "import".data.isPrefixOf cs then
    let rest := cs.drop 6
    let line := rest.takeWhile (fun c => c != '\n')
    let cands := (List.range (line.length + 1)).filterMap fun j =>
      (matchFromAt (rest.drop j)).map (fun l => j + l)
    match cands.getLast? with
    | some total => some (6 + total, "import".data ++ rest.take total)
    | none => none
  else none

/-- The `patterns` table of `parseJSChunks`
(advanced-codebase-index.ts:296-301), in source order. -/
def jsPatterns : List ((List Char → Option (ℕ × List Char)) × String) :=
  [ (matchFunctionAt, "function"),
    (matchClassAt, "class"),
    (matchConstAt, "variable"),
    (matchImportAt, "import") ]

/-- The chunk built for one JS pattern match
(advanced-codebase-index.ts:303-329): a fixed 10-line lookahead window
whose recorded `endLine` is not clipped to the file length, with the
match's global index stored as the symbol's `column`. -/
def jsChunkOfMatch (filePath : String) (content : List Char) (lines : List String)
    (ty : String) (m : ℕ × ℕ × List Char) : Chunk :=
  let idx := m.1
  let cap := m.2.2
  let startLine := lineOfIndex content idx
  let endLine := startLine + 10
  let chunkContent :=
    String.intercalate "\n" ((lines.drop (startLine - 1)).take (endLine - (startLine - 1)))
  { id := filePath ++ ":" ++ toString startLine ++ "-" ++ toString endLine ++ ":" ++ ty
    content := chunkContent
    type := "symbol"
    symbols :=
      [{ name := String.mk cap
         type := ty
         location := { line := startLine, column := idx, endLine := endLine, endColumn := 0 }
         context := chunkContent
         file := filePath
         language := "javascript" }]
    location := { startLine := startLine, endLine := endLine }
    file := filePath
    language := "javascript" }

/-- `parseJSChunks` (advanced-codebase-index.ts:292-333). -/
def parseJSChunks (content filePath : String) (lines : List String) : List Chunk :=
  let chunks := (jsPatterns.map fun pt =>
    (scanAll pt.1 content.data 0).map (jsChunkOfMatch filePath content.data lines pt.2)).flatten
  if 0 < chunks.length then chunks else parseGenericChunks content filePath lines

/-! ### Markdown header matcher (advanced-codebase-index.ts:335-374).
The header pattern is `/^#{1,6}\s+(.+)$/gm`; because `\s` also matches
newlines, the greedy `\s+` may cross line breaks and backtrack so that
`(.+)` keeps at least one non-newline character. -/

/-- Regex backtracking of the greedy `\s+` of the header pattern when the
text after the whitespace run is empty: give back the smallest suffix that
starts with a non-newline (`.`-matchable) character, keeping `\s+`
nonempty. -/
def mdBacktrack (w : List Char) : Option (ℕ × List Char) :=
  match ((List.range w.length).filter fun k =>
      decide (1 ≤ k) && (w.getD k '\n' != '\n')).getLast? with
  | some k => some (k, (w.drop k).takeWhile (fun x => x != '\n'))
  | none => none

/-- Match `#{1,6}\s+(.+)$` at a line start, returning (length, capture). -/
def mdMatchAt (cs : List Char) : Option (ℕ × List Char) :=
  let hs := cs.takeWhile (fun c => c == '#')
  if hs.length = 0 ∨ 6 < hs.length then none
  else
    let r1 := cs.drop hs.length
    let w := r1.takeWhile isWsChar
    if w.length = 0 then none
    else
      match r1.drop w.length with
      | c :: r2 =>
        let cap := c :: r2.takeWhile (fun x => x != '\n')
        some (hs.length + w.length + cap.length, cap)
      | [] =>
        match mdBacktrack w with
        | some (k, cap) => some (hs.length + k + cap.length, cap)
        | none => none

/-- Sweep `mdMatchAt` across the line starts of the text, continuing after
each match as the `exec` loop with its `lastIndex` reset does
(advanced-codebase-index.ts:343-351); every match ends right before a
newline or at the end of input. -/
def mdScan (cs : List Char) (idx : ℕ) : List (ℕ × ℕ × List Char) :=
  match mdMatchAt cs with
  | some (len, cap) =>
    match h : cs.drop len with
    | '\n' :: tail => (idx, len, cap) :: mdScan tail (idx + len + 1)
    | _ => [(idx, len, cap)]
  | none =>
    let line := cs.takeWhile (fun c => c != '\n')
    match h : cs.drop line.length with
    | '\n' :: tail => mdScan tail (idx + line.length + 1)
    | _ => []
termination_by cs.length
decreasing_by
  · have := congrArg List.length h
    simp only [List.length_drop, List.length_cons] at this
    omega
  · have := congrArg List.length h
    simp only [List.length_drop, List.length_cons] at this
    omega

/-- The chunk list built from the markdown matches: each section runs from
its header to the next header (exclusive) or the end of the file
(advanced-codebase-index.ts:343-371). -/
def mdChunksFrom (filePath : String) (content : List Char) :
    List (ℕ × ℕ × List Char) → List Chunk
  | [] => []
  | (idx, _, cap) :: rest =>
    let endPos :=
      match rest with
      | (idx2, _, _) :: _ => idx2
      | [] => content.length
    let sectionContent := (content.drop idx).take (endPos - idx)
    let startLine := lineOfIndex content idx
    let endLine := startLine + newlineCount sectionContent
    { id := filePath ++ ":" ++ toString startLine ++ "-" ++ toString endLine ++ ":section"
      content := String.mk sectionContent
      type := "block"
      symbols :=
        [{ name := String.mk cap
           type := "element"
           location :=
             { line := startLine, column := 0, endLine := startLine, endColumn := cap.length }
           context := String.mk (sectionContent.take 200)
           file := filePath
           language := "markdown" }]
      location := { startLine := startLine, endLine := endLine }
      file := filePath
      language := "markdown" } :: mdChunksFrom filePath content rest

/-- `parseMarkdownChunks` (advanced-codebase-index.ts:335-374). -/
def parseMarkdownChunks (content filePath : String) (lines : List String) : List Chunk :=
  let chunks := mdChunksFrom filePath content.data (mdScan content.data 0)
  if 0 < chunks.length then chunks else parseGenericChunks content filePath lines

/-- `parseFileIntoChunks` (advanced-codebase-index.ts:222-235): dispatch
on the detected language, with the generic fixed-size chunker as the
fallback. -/
def parseFileIntoChunks (content filePath language : String) : List Chunk :=
  let lines := jsSplitNl content
  if language = "html" then parseHTMLChunks content filePath lines
  else if language = "javascript" ∨ language = "typescript" then
    parseJSChunks content filePath lines
  else if language = "markdown" then parseMarkdownChunks content filePath lines
  else parseGenericChunks content filePath lines

end AdvIdx

namespace AdvIdx

/-- Shape of every chunk emitted by the generic loop from index `i`: no
symbols, window bounds inside the file, at most 50 lines. -/
theorem genericChunkLoop_shape (filePath lang : String) (lines : List String) :
    ∀ m i, lines.length - i ≤ m →
      ∀ c ∈ genericChunkLoop filePath lang lines i,
        c.symbols = [] ∧ c.type = "block" ∧
        i + 1 ≤ c.location.startLine ∧
        c.location.startLine ≤ c.location.endLine ∧
        c.location.endLine ≤ lines.length ∧
        c.location.endLine < c.location.startLine + 50 := by
  intro m
  induction m with
  | zero =>
    intro i h c hc
    rw [genericChunkLoop] at hc
    rw [if_neg (by omega)] at hc
    exact absurd hc (List.not_mem_nil c)
  | succ m ih =>
    intro i h c hc
    rw [genericChunkLoop] at hc
    by_cases hlt : i < lines.length
    · rw [if_pos hlt] at hc
      rcases List.mem_cons.1 hc with rfl | hc'
      · refine ⟨rfl, rfl, ?_, ?_, ?_, ?_⟩ <;> simp <;> omega
      · have := ih (i + 50) (by omega) c hc'
        exact ⟨this.1, this.2.1, by omega, this.2.2.2.1, this.2.2.2.2.1, this.2.2.2.2.2⟩
    · rw [if_neg hlt] at hc
      exact absurd hc (List.not_mem_nil c)

/-- Exact-coverage count of the generic loop: each line `n` of
`i+1 .. lines.length` is covered by exactly one emitted chunk, and no
line outside that range is covered. -/
theorem genericChunkLoop_countP (filePath lang : String) (lines : List String) (n : ℕ) :
    ∀ m i, lines.length - i ≤ m →
      (genericChunkLoop filePath lang lines i).countP
        (fun c => decide (c.location.startLine ≤ n ∧ n ≤ c.location.endLine)) =
        if i + 1 ≤ n ∧ n ≤ lines.length then 1 else 0 := by
  intro m
  induction m with
  | zero =>
    intro i h
    rw [genericChunkLoop, if_neg (by omega)]
    simp only [List.countP_nil]
    rw [if_neg (by omega)]
  | succ m ih =>
    intro i h
    rw [genericChunkLoop]
    by_cases hlt : i < lines.length
    · rw [if_pos hlt]
      rw [List.countP_cons, ih (i + 50) (by omega)]
      simp only [decide_eq_true_eq]
      split_ifs <;> simp_all <;> omega
    · rw [if_neg hlt]
      simp only [List.countP_nil]
      rw [if_neg (by omega)]

end AdvIdx

/-- C8.  Chunks produced by the generic fallback chunker are windows of at
most 50 lines, carry no symbols, and their line ranges cover each line of
the file exactly once (hence they are non-overlapping) and no line outside
the file. -/
theorem C8_parseGenericChunks :
    ∀ content filePath : String,
      (∀ c ∈ AdvIdx.parseGenericChunks content filePath (AdvIdx.jsSplitNl content),
        c.symbols = [] ∧
        c.location.startLine ≤ c.location.endLine ∧
        c.location.endLine < c.location.startLine + 50) ∧
      (∀ n, 1 ≤ n → n ≤ (AdvIdx.jsSplitNl content).length →
        (AdvIdx.parseGenericChunks content filePath (AdvIdx.jsSplitNl content)).countP
          (fun c => decide (c.location.startLine ≤ n ∧ n ≤ c.location.endLine)) = 1) ∧
      (∀ n, (AdvIdx.jsSplitNl content).length < n ∨ n = 0 →
        (AdvIdx.parseGenericChunks content filePath (AdvIdx.jsSplitNl content)).countP
          (fun c => decide (c.location.startLine ≤ n ∧ n ≤ c.location.endLine)) = 0) := by
  intro content filePath
  refine ⟨?_, ?_, ?_⟩
  · intro c hc
    have := AdvIdx.genericChunkLoop_shape filePath (AdvIdx.detectLanguage filePath)
      (AdvIdx.jsSplitNl content) (AdvIdx.jsSplitNl content).length 0 (by omega) c hc
    exact ⟨this.1, this.2.2.2.1, this.2.2.2.2.2⟩
  · intro n h1 h2
    have := AdvIdx.genericChunkLoop_countP filePath (AdvIdx.detectLanguage filePath)
      (AdvIdx.jsSplitNl content) n (AdvIdx.jsSplitNl content).length 0 (by omega)
    rw [AdvIdx.parseGenericChunks, this, if_pos (by omega)]
  · intro n hn
    have := AdvIdx.genericChunkLoop_countP filePath (AdvIdx.detectLanguage filePath)
      (AdvIdx.jsSplitNl content) n (AdvIdx.jsSplitNl content).length 0 (by omega)
    rw [AdvIdx.parseGenericChunks, this, if_neg (by omega)]

/-- Witness for C8: the theorem applied to the two-line file "a\nb" at
line 2, which is covered by exactly one chunk. -/
theorem C8_witness :
    (AdvIdx.parseGenericChunks "a\nb" "f.txt" (AdvIdx.jsSplitNl "a\nb")).countP
      (fun c => decide (c.location.startLine ≤ 2 ∧ 2 ≤ c.location.endLine)) = 1 :=
  (C8_parseGenericChunks "a\nb" "f.txt").2.1 2 (by omega)
    (by simp [AdvIdx.jsSplitNl, AdvIdx.jsSplitNlAux])

/-- C7.  The claim says an empty file produces zero chunks; in fact
`''.split('\n')` is `['']`, one (empty) line, so the generic fallback
emits exactly one chunk with empty content. -/
theorem C7_counterexample :
    AdvIdx.parseFileIntoChunks "" "file.txt" "text" ≠ [] := by
  rw [AdvIdx.parseFileIntoChunks]
  simp only [show AdvIdx.jsSplitNl "" = [""] from rfl]
  norm_num
  rw [AdvIdx.parseGenericChunks, AdvIdx.genericChunkLoop]
  simp

/-- C7 (amended).  Chunking an empty file produces exactly one chunk, not
zero: for every path and every language the specialised parsers find no
pattern match in empty text and fall back to the generic chunker, which
emits a single symbol-free block chunk with empty content spanning line 1
to line 1. -/
theorem C7_parseFileIntoChunks_empty :
    ∀ filePath language : String,
      (AdvIdx.parseFileIntoChunks "" filePath language).length = 1 ∧
      ∀ c ∈ AdvIdx.parseFileIntoChunks "" filePath language,
        c.content = "" ∧ c.symbols = [] ∧ c.type = "block" ∧
        c.location.startLine = 1 ∧ c.location.endLine = 1 := by
  intro filePath language
  have hgen : AdvIdx.parseGenericChunks "" filePath [""] =
      [{ id := filePath ++ ":" ++ toString (0 + 1) ++ "-" ++
           toString (min (0 + 50) [""].length) ++ ":block"
         content := String.intercalate "\n" (([""].drop 0).take (min (0 + 50) [""].length - 0))
         type := "block"
         symbols := []
         location := { startLine := 0 + 1, endLine := min (0 + 50) [""].length }
         file := filePath
         language := AdvIdx.detectLanguage filePath }] := by
    rw [AdvIdx.parseGenericChunks, AdvIdx.genericChunkLoop]
    rw [if_pos (by simp)]
    rw [AdvIdx.genericChunkLoop, if_neg (by simp)]
  have hdisp : AdvIdx.parseFileIntoChunks "" filePath language =
      AdvIdx.parseGenericChunks "" filePath [""] := by
    rw [AdvIdx.parseFileIntoChunks]
    simp only [show AdvIdx.jsSplitNl "" = [""] from rfl]
    by_cases h1 : language = "html"
    · rw [if_pos h1, AdvIdx.parseHTMLChunks]
      simp [AdvIdx.htmlPatterns, AdvIdx.scanAll]
    · rw [if_neg h1]
      by_cases h2 : language = "javascript" ∨ language = "typescript"
      · rw [if_pos h2, AdvIdx.parseJSChunks]
        simp [AdvIdx.jsPatterns, AdvIdx.scanAll]
      · rw [if_neg h2]
        by_cases h3 : language = "markdown"
        · rw [if_pos h3, AdvIdx.parseMarkdownChunks]
          rw [AdvIdx.mdScan]
          simp [AdvIdx.mdMatchAt, AdvIdx.mdChunksFrom]
        · rw [if_neg h3]
  rw [hdisp, hgen]
  refine ⟨rfl, ?_⟩
  intro c hc
  rcases List.mem_singleton.1 hc with rfl
  refine ⟨rfl, rfl, rfl, rfl, rfl⟩

namespace AdvIdx

/-! ### Persistent state of the advanced index (the SQLite schema of
advanced-codebase-index.ts:58-101) and the write path. -/

/-- A row of the `repositories` table. -/
structure RepoRow where
  id : ℕ
  name : String
  lastCommitHash : Option String
  lastIndexed : Option String
  totalChunks : ℕ
deriving DecidableEq

/-- A row of the `chunks` table.  The `embedding` TEXT column holds the
JSON produced by the external embedding model plus `JSON.stringify`; the
`termFreq` column holds the computed frequency map (its JSON serialisation
abstracted away, as nothing under verification reads it back). -/
structure ChunkRow where
  id : String
  repositoryId : ℕ
  filePath : String
  content : String
  chunkType : String
  language : String
  startLine : ℕ
  endLine : ℕ
  embedding : String
  termFreq : List (String × ℕ)
deriving DecidableEq

/-- A row of the `symbols` table, without the surrogate AUTOINCREMENT key,
which nothing reads. -/
structure SymbolRow where
  chunkId : String
  name : String
  symbolType : String
  line : ℕ
  column : ℕ
  endLine : ℕ
  endColumn : ℕ
  context : String
deriving DecidableEq

/-- A row of the `chunks_fts` full-text table. -/
structure FtsRow where
  id : String
  content : String
  filePath : String
  symbolNames : String
deriving DecidableEq

/-- The persistent SQLite state of the advanced index. -/
structure Store where
  repos : List RepoRow
  chunks : List ChunkRow
  symbols : List SymbolRow
  fts : List FtsRow
deriving DecidableEq

/-- The AUTOINCREMENT id for a fresh repository row. -/
def nextRepoId (s : Store) : ℕ :=
  (s.repos.map (fun r => r.id)).foldl max 0 + 1

/-- `getOrCreateRepository` (advanced-codebase-index.ts:645-651):
`SELECT id FROM repositories WHERE name = ?`, else
`INSERT INTO repositories (name) VALUES (?)` returning `lastID`. -/
def getOrCreateRepository (s : Store) (name : String) : ℕ × Store :=
  match s.repos.find? (fun r => r.name == name) with
  | some r => (r.id, s)
  | none =>
    let rid := nextRepoId s
    (rid, { s with repos := s.repos ++
        [{ id := rid, name := name, lastCommitHash := none,
           lastIndexed := none, totalChunks := 0 }] })

/-- `calculateTermFrequencies` (advanced-codebase-index.ts:601-613):
lowercase, replace non-word non-space characters by spaces, split on
whitespace runs, keep terms longer than 2, count into an insertion-ordered
map. -/
def calculateTermFrequencies (content : String) : List (String × ℕ) :=
  let terms := (jsSplitWs (String.mk ((asciiLower content).data.map fun c =>
    if isWordChar c || c.isWhitespace then c else ' '))).filter
      (fun t => decide (2 < t.length))
  terms.foldl (fun freq term =>
    match freq.find? (fun p => p.1 == term) with
    | some _ => freq.map (fun p => if p.1 == term then (p.1, p.2 + 1) else p)
    | none => freq ++ [(term, 1)]) []

/-- `DELETE FROM chunks WHERE repositoryId = ?`
(advanced-codebase-index.ts:130). -/
def deleteChunksOp (repoId : ℕ) (s : Store) : Store :=
  { s with chunks := s.chunks.filter (fun c => !(c.repositoryId == repoId)) }

/-- `DELETE FROM symbols WHERE chunkId IN (SELECT id FROM chunks WHERE
repositoryId = ?)` (advanced-codebase-index.ts:131) — the subquery reads
the chunks table in its state at this point of the pass. -/
def deleteSymbolsOp (repoId : ℕ) (s : Store) : Store :=
  let doomed := (s.chunks.filter (fun c => c.repositoryId == repoId)).map (fun c => c.id)
  { s with symbols := s.symbols.filter (fun sym => !(doomed.contains sym.chunkId)) }

/-- `DELETE FROM chunks_fts WHERE rowid IN (SELECT rowid FROM chunks_fts
WHERE id LIKE '<repoName>:%')` (advanced-codebase-index.ts:132). -/
def deleteFtsOp (repoName : String) (s : Store) : Store :=
  { s with fts := s.fts.filter (fun row => !((repoName ++ ":").data.isPrefixOf row.id.data)) }

/-- `INSERT INTO chunks ...` (advanced-codebase-index.ts:158-172). -/
def insertChunkOp (repoId : ℕ) (relPath lang : String) (embedJson : String → String)
    (c : Chunk) (s : Store) : Store :=
  { s with chunks := s.chunks ++
      [{ id := c.id, repositoryId := repoId, filePath := relPath, content := c.content,
         chunkType := c.type, language := lang, startLine := c.location.startLine,
         endLine := c.location.endLine, embedding := embedJson c.content,
         termFreq := calculateTermFrequencies c.content }] }

/-- `INSERT INTO symbols ...` (advanced-codebase-index.ts:176-188). -/
def insertSymbolOp (chunkId : String) (sym : Symbol) (s : Store) : Store :=
  { s with symbols := s.symbols ++
      [{ chunkId := chunkId, name := sym.name, symbolType := sym.type,
         line := sym.location.line, column := sym.location.column,
         endLine := sym.location.endLine, endColumn := sym.location.endColumn,
         context := sym.context }] }

/-- `INSERT INTO chunks_fts ...` (advanced-codebase-index.ts:192-196). -/
def insertFtsOp (c : Chunk) (relPath : String) (s : Store) : Store :=
  { s with fts := s.fts ++
      [{ id := c.id, content := c.content, filePath := relPath,
         symbolNames := String.intercalate " " (c.symbols.map fun sy => sy.name) }] }

/-- `UPDATE repositories SET lastCommitHash = ?, lastIndexed = ?,
totalChunks = ? WHERE id = ?` (advanced-codebase-index.ts:203-206). -/
def updateRepoMetaOp (repoId : ℕ) (hash now : String) (total : ℕ) (s : Store) : Store :=
  { s with repos := s.repos.map fun r =>
      if r.id = repoId then
        { r with lastCommitHash := some hash, lastIndexed := some now, totalChunks := total }
      else r }

/-- External collaborators of one advanced indexing pass: the `git clone`
outcome, `git rev-parse HEAD`, the enumerated relative file paths with
their reads, the composite "embed then JSON.stringify" capability, the
wall clock, and a storage-failure oracle deciding whether the n-th
database write of the pass throws (SELECT statements are modelled as pure
reads of the state). -/
structure AdvEnv where
  cloneErr : Option String
  headHash : Except String String
  files : List String
  readFile : String → Except String String
  embedJson : String → String
  now : String
  dbFail : ℕ → Bool

/-- Result of the write loops: state, next write index, error, chunk
count. -/
structure WriteRes where
  store : Store
  nOps : ℕ
  err : Option String
  total : ℕ

/-- The `for (const symbol of chunk.symbols)` insert loop
(advanced-codebase-index.ts:175-189). -/
def advInsertSymbols (env : AdvEnv) (chunkId : String) :
    List Symbol → ℕ → Store → Store × ℕ × Option String
  | [], n, s => (s, n, none)
  | sym :: rest, n, s =>
    if env.dbFail n then (s, n + 1, some "storage failure")
    else advInsertSymbols env chunkId rest (n + 1) (insertSymbolOp chunkId sym s)

/-- The `for (const chunk of chunks)` loop (advanced-codebase-index.ts:
150-199): insert the chunk row, its symbols, and its FTS row, counting
`totalChunks`. -/
def advInsertChunks (env : AdvEnv) (repoId : ℕ) (relPath lang : String) :
    List Chunk → ℕ → Store → ℕ → WriteRes
  | [], n, s, total => ⟨s, n, none, total⟩
  | c :: rest, n, s, total =>
    if env.dbFail n then ⟨s, n + 1, some "storage failure", total⟩
    else
      let s1 := insertChunkOp repoId relPath lang env.embedJson c s
      match advInsertSymbols env c.id c.symbols (n + 1) s1 with
      | (s2, n2, some e) => ⟨s2, n2, some e, total⟩
      | (s2, n2, none) =>
        if env.dbFail n2 then ⟨s2, n2 + 1, some "storage failure", total⟩
        else advInsertChunks env repoId relPath lang rest (n2 + 1) (insertFtsOp c relPath s2) (total + 1)

/-- The `for (const filePath of files)` loop (advanced-codebase-index.ts:
140-200).  A file-read failure aborts the pass: unlike the basic indexer,
this loop has no per-file try/catch. -/
def advIndexFiles (env : AdvEnv) (repoId : ℕ) :
    List String → ℕ → Store → ℕ → WriteRes
  | [], n, s, total => ⟨s, n, none, total⟩
  | path :: rest, n, s, total =>
    match env.readFile path with
    | .error e => ⟨s, n, some e, total⟩
    | .ok content =>
      let language := detectLanguage path
      let chunks := parseFileIntoChunks content path language
      match advInsertChunks env repoId path language chunks n s total with
      | ⟨s1, n1, some e, t1⟩ => ⟨s1, n1, some e, t1⟩
      | ⟨s1, n1, none, t1⟩ => advIndexFiles env repoId rest n1 s1 t1

/-- `indexRepository` (advanced-codebase-index.ts:112-220): clone, read
HEAD, get-or-create the repository row, clear the previous snapshot
(chunks, then symbols, then FTS — in that order), write the new snapshot
file by file, and only then update the repository metadata.  Every failure
propagates (the catch block re-throws) and aborts before the metadata
update. -/
def advIndexRepository (env : AdvEnv) (repoName : String) (s : Store) :
    Store × Option String :=
  match env.cloneErr with
  | some e => (s, some e)
  | none =>
    match env.headHash with
    | .error e => (s, some e)
    | .ok currentHash =>
      let rs := getOrCreateRepository s repoName
      let repoId := rs.1
      let s0 := rs.2
      if env.dbFail 0 then (s0, some "storage failure")
      else
        let s1 := deleteChunksOp repoId s0
        if env.dbFail 1 then (s1, some "storage failure")
        else
          let s2 := deleteSymbolsOp repoId s1
          if env.dbFail 2 then (s2, some "storage failure")
          else
            let s3 := deleteFtsOp repoName s2
            match advIndexFiles env repoId env.files 3 s3 0 with
            | ⟨s4, _, some e, _⟩ => (s4, some e)
            | ⟨s4, n4, none, total⟩ =>
              if env.dbFail n4 then (s4, some "storage failure")
              else (updateRepoMetaOp repoId currentHash env.now total s4, none)

end AdvIdx

/-- The concrete pre-state for C2: one repository `r` (id 1) whose current
snapshot is one chunk `c1` with one symbol row referencing it. -/
def c2Store : AdvIdx.Store :=
  { repos := [{ id := 1, name := "r", lastCommitHash := some "old",
                lastIndexed := some "t0", totalChunks := 1 }]
    chunks := [{ id := "c1", repositoryId := 1, filePath := "f.txt", content := "hello",
                 chunkType := "block", language := "text", startLine := 1, endLine := 1,
                 embedding := "[]", termFreq := [] }]
    symbols := [{ chunkId := "c1", name := "sym", symbolType := "function",
                  line := 1, column := 0, endLine := 2, endColumn := 0, context := "ctx" }]
    fts := [{ id := "c1", content := "hello", filePath := "f.txt", symbolNames := "sym" }] }

/-- The environment for C2: clone succeeds at a new commit `new`, the new
tree has no eligible files, no write fails. -/
def c2Env : AdvIdx.AdvEnv :=
  { cloneErr := none, headHash := .ok "new", files := [],
    readFile := fun _ => .error "unreadable", embedJson := fun _ => "[]",
    now := "t1", dbFail := fun _ => false }

/-- C2.  The claim (and the spec's lifecycle rule) is the evident intent,
but the code deletes the chunks **first** and then deletes the symbols
whose `chunkId` is in `SELECT id FROM chunks WHERE repositoryId = ?` — a
subquery that is already empty, so the symbol delete is dead code.  After
a successful re-index at commit `new`, the old symbol row for chunk `c1`
is still present even though no chunk `c1` exists any more. -/
theorem C2_orphan_symbols :
    (AdvIdx.advIndexRepository c2Env "r" c2Store).2 = none ∧
    ((AdvIdx.advIndexRepository c2Env "r" c2Store).1.repos.map
      (fun r => r.lastCommitHash)) = [some "new"] ∧
    (AdvIdx.advIndexRepository c2Env "r" c2Store).1.chunks = [] ∧
    ((AdvIdx.advIndexRepository c2Env "r" c2Store).1.symbols.map
      (fun sy => sy.chunkId)) = ["c1"] := by
  refine ⟨by decide, by decide, by decide, by decide⟩

namespace AdvIdx

/-! ### Repository-row preservation through the write path (for C4). -/

theorem advInsertSymbols_repos (env : AdvEnv) (chunkId : String) :
    ∀ (syms : List Symbol) (n : ℕ) (s : Store),
      (advInsertSymbols env chunkId syms n s).1.repos = s.repos := by
  intro syms
  induction syms with
  | nil => intro n s; rfl
  | cons sym rest ih =>
    intro n s
    rw [advInsertSymbols]
    by_cases h : env.dbFail n = true
    · rw [if_pos h]
    · rw [if_neg h, ih]
      rfl

theorem advInsertChunks_repos (env : AdvEnv) (repoId : ℕ) (relPath lang : String) :
    ∀ (chunks : List Chunk) (n : ℕ) (s : Store) (total : ℕ),
      (advInsertChunks env repoId relPath lang chunks n s total).store.repos = s.repos := by
  intro chunks
  induction chunks with
  | nil => intro n s total; rfl
  | cons c rest ih =>
    intro n s total
    rw [advInsertChunks]
    by_cases h : env.dbFail n = true
    · rw [if_pos h]
    · rw [if_neg h]
      dsimp only
      rcases hm : advInsertSymbols env c.id c.symbols (n + 1)
        (insertChunkOp repoId relPath lang env.embedJson c s) with ⟨s2, n2, err⟩
      have hsym := advInsertSymbols_repos env c.id c.symbols (n + 1)
        (insertChunkOp repoId relPath lang env.embedJson c s)
      rw [hm] at hsym
      cases err with
      | some e =>
        dsimp only
        exact hsym
      | none =>
        dsimp only
        by_cases h2 : env.dbFail n2 = true
        · rw [if_pos h2]
          exact hsym
        · rw [if_neg h2, ih]
          exact hsym

set_option maxHeartbeats 1000000 in
theorem advIndexFiles_repos (env : AdvEnv) (repoId : ℕ) :
    ∀ (files : List String) (n : ℕ) (s : Store) (total : ℕ),
      (advIndexFiles env repoId files n s total).store.repos = s.repos := by
  intro files
  induction files with
  | nil => intro n s total; rfl
  | cons path rest ih =>
    intro n s total
    rw [advIndexFiles]
    cases hr : env.readFile path with
    | error e => rfl
    | ok content =>
      dsimp only
      rcases hm : advInsertChunks env repoId path (detectLanguage path)
        (parseFileIntoChunks content path (detectLanguage path)) n s total with ⟨s1, n1, err, t1⟩
      have hck := advInsertChunks_repos env repoId path (detectLanguage path)
        (parseFileIntoChunks content path (detectLanguage path)) n s total
      rw [hm] at hck
      try rw [hm]
      cases err with
      | some e =>
        dsimp only
        exact hck
      | none =>
        dsimp only
        rw [ih]
        exact hck

theorem getOrCreateRepository_repos (s : Store) (name : String) :
    List.IsPrefix s.repos (getOrCreateRepository s name).2.repos ∧
    ∀ r ∈ (getOrCreateRepository s name).2.repos,
      r ∈ s.repos ∨ r.lastCommitHash = none := by
  rw [getOrCreateRepository]
  cases h : s.repos.find? (fun r => r.name == name) with
  | some r =>
    exact ⟨List.prefix_rfl, fun r hr => Or.inl hr⟩
  | none =>
    simp only
    constructor
    · exact ⟨_, rfl⟩
    · intro r hr
      rcases List.mem_append.1 hr with hr' | hr'
      · exact Or.inl hr'
      · rcases List.mem_singleton.1 hr' with rfl
        exact Or.inr rfl

end AdvIdx

namespace CbIdx

/-! ### The basic file index (codebase-index.ts): schema (84-113),
`needsUpdate`, `indexRepository` and the search-scoring heuristics. -/

/-- A row of the `repositories` table. -/
structure RepoRow where
  id : ℕ
  name : String
  lastCommitHash : Option String
  lastIndexed : Option String
  totalFiles : ℕ
deriving DecidableEq

/-- A row of the `files` table; `embedding` holds the serialised JSON
vector, `imports`/`exports` the extracted lists (their JSON serialisation
abstracted). -/
structure FileRow where
  repositoryId : ℕ
  path : String
  content : String
  contentHash : String
  size : ℕ
  lastModified : String
  fileType : String
  embedding : String
  imports : List String
  exports : List String
deriving DecidableEq

/-- The persistent SQLite state of the basic index. -/
structure Store where
  repos : List RepoRow
  files : List FileRow
deriving DecidableEq

def nextRepoId (s : Store) : ℕ :=
  (s.repos.map (fun r => r.id)).foldl max 0 + 1

/-- `getOrCreateRepository` (codebase-index.ts:115-141):
`INSERT INTO repositories (name, lastIndexed)` when absent. -/
def getOrCreateRepository (s : Store) (name now : String) : ℕ × Store :=
  match s.repos.find? (fun r => r.name == name) with
  | some r => (r.id, s)
  | none =>
    let rid := nextRepoId s
    (rid, { s with repos := s.repos ++
        [{ id := rid, name := name, lastCommitHash := none,
           lastIndexed := some now, totalFiles := 0 }] })

/-- JavaScript falsiness of the stored hash (`!repo.lastCommitHash`):
missing or the empty string. -/
def jsFalsyHash : Option String → Bool
  | none => true
  | some h => h == ""

/-- `needsUpdate` (codebase-index.ts:143-178).  `gh` is the GitHub
commit lookup for the ref; `Except.error` covers both a non-ok response
and a thrown exception, each of which returns true ("assume stale"). -/
def needsUpdate (s : Store) (repoName : String) (gh : Except Unit String) : Bool :=
  match s.repos.find? (fun r => r.name == repoName) with
  | none => true
  | some r =>
    match r.lastCommitHash with
    | none => true
    | some stored =>
      if stored == "" then true
      else
        match gh with
        | .error _ => true
        | .ok current => !(stored == current)

/-- `getFileType` (codebase-index.ts:317-355). -/
def getFileType (path : String) : String :=
  let ext := AdvIdx.extname path
  let name := String.mk ((path.data.reverse.takeWhile (fun c => c != '/')).reverse)
  if ext = ".html" ∨ ext = ".htm" then "page"
  else if ext = ".css" ∨ ext = ".scss" ∨ ext = ".sass" then "style"
  else if ext = ".tsx" ∨ ext = ".jsx" then "component"
  else if ext = ".ts" ∨ ext = ".js" then
    if AdvIdx.jsIncludes path "/api/" ∨ AdvIdx.jsIncludes name "route" then "api"
    else if AdvIdx.jsIncludes path "/lib/" ∨ AdvIdx.jsIncludes path "/utils/" then "utility"
    else if name = "layout.tsx" ∨ name = "page.tsx" then "page"
    else "script"
  else if ext = ".json" then
    if name = "package.json" then "config" else "data"
  else if ext = ".yml" ∨ ext = ".yaml" then "config"
  else if ext = ".xml" then "data"
  else if ext = ".md" then "documentation"
  else if ext = ".php" ∨ ext = ".py" ∨ ext = ".rb" ∨ ext = ".go" ∨ ext = ".rs" ∨
    ext = ".java" ∨ ext = ".c" ∨ ext = ".cpp" ∨ ext = ".h" then "script"
  else "other"

/-- Match `import\s+(?:[^'"]*from\s+)?['"]([^'"]+)['"]` at the head.  The
optional group and the opening quote both consist of non-quote characters
followed by a quote, so the opening quote is the first quote after
`import\s+`; the group succeeds iff the non-quote stretch ends in
`from` + nonempty whitespace. -/
def matchImportPathAt (cs : List Char) : Option (ℕ × List Char) :=
  if "import".data.isPrefixOf cs then
    let r1 := cs.drop 6
    let ws := r1.takeWhile AdvIdx.isWsChar
    if ws.length = 0 then none
    else
      let r2 := r1.drop ws.length
      let pre := r2.takeWhile (fun c => c != AdvIdx.squote && c != AdvIdx.dquote)
      let groupOk := (List.range pre.length).any fun j =>
        "from".data.isPrefixOf (pre.drop j) &&
        decide (j + 4 < pre.length) && (pre.drop (j + 4)).all AdvIdx.isWsChar
      if pre.length = 0 ∨ groupOk then
        match r2.drop pre.length with
        | q :: r3 =>
          if q == AdvIdx.squote || q == AdvIdx.dquote then
            let body := r3.takeWhile fun c => c != AdvIdx.squote && c != AdvIdx.dquote
            if body.length = 0 then none
            else
              match r3.drop body.length with
              | q2 :: _ =>
                if q2 == AdvIdx.squote || q2 == AdvIdx.dquote then
                  some (6 + ws.length + pre.length + 1 + body.length + 1, body)
                else none
              | _ => none
          else none
        | _ => none
      else none
  else none

/-- Match
`export\s+(?:default\s+)?(?:function|class|const|let|var)\s+([a-zA-Z_$][a-zA-Z0-9_$]*)`
at the head. -/
def matchExportAt (cs : List Char) : Option (ℕ × List Char) :=
  if "export".data.isPrefixOf cs then
    let r1 := cs.drop 6
    let ws1 := r1.takeWhile AdvIdx.isWsChar
    if ws1.length = 0 then none
    else
      let r2 := r1.drop ws1.length
      let dAttempt : Option (ℕ × List Char) :=
        if "default".data.isPrefixOf r2 then
          let rd := r2.drop 7
          let wsd := rd.takeWhile AdvIdx.isWsChar
          if wsd.length = 0 then none else some (7 + wsd.length, rd.drop wsd.length)
        else none
      let dLen := (dAttempt.map (fun p => p.1)).getD 0
      let r3 := (dAttempt.map (fun p => p.2)).getD r2
      let kw : Option ℕ :=
        if "function".data.isPrefixOf r3 then some 8
        else if "class".data.isPrefixOf r3 then some 5
        else if "const".data.isPrefixOf r3 then some 5
        else if "let".data.isPrefixOf r3 then some 3
        else if "var".data.isPrefixOf r3 then some 3
        else none
      match kw with
      | none => none
      | some klen =>
        let r4 := r3.drop klen
        let ws2 := r4.takeWhile AdvIdx.isWsChar
        if ws2.length = 0 then none
        else
          match r4.drop ws2.length with
          | c :: r6 =>
            if c.isAlpha || c == '_' || c == '$' then
              let tailChars := r6.takeWhile fun x => x.isAlphanum || x == '_' || x == '$'
              some (6 + ws1.length + dLen + klen + ws2.length + 1 + tailChars.length,
                c :: tailChars)
            else none
          | [] => none
  else none

/-- `extractImportsExports` (codebase-index.ts:357-377). -/
def extractImportsExports (content : String) (fileType : String) :
    List String × List String :=
  if fileType == "component" || fileType == "script" || fileType == "utility" then
    ((AdvIdx.scanAll matchImportPathAt content.data 0).map fun m => String.mk m.2.2,
     (AdvIdx.scanAll matchExportAt content.data 0).map fun m => String.mk m.2.2)
  else ([], [])

end CbIdx

namespace CbIdx

/-- External collaborators of one basic indexing pass: `git clone`
outcome, `log.latest?.hash` (an optional hash on success), the enumerated
relative paths with their reads, `crypto` MD5, the composite
"embed-summary then JSON.stringify" capability, the wall clock, and the
storage-failure oracle for the n-th write. -/
structure CbEnv where
  cloneErr : Option String
  logHash : Except String (Option String)
  files : List String
  readFile : String → Except String String
  md5 : String → String
  embedJson : String → String
  now : String
  dbFail : ℕ → Bool

/-- The row `indexFile` stores (codebase-index.ts:277-315); the embedding
summary is `path + '\n' + content.substring(0, 1000)`. -/
def fileRowOf (env : CbEnv) (repoId : ℕ) (relPath content : String) : FileRow :=
  let fileType := getFileType relPath
  let ie := extractImportsExports content fileType
  { repositoryId := repoId
    path := relPath
    content := content
    contentHash := env.md5 content
    size := content.length
    lastModified := env.now
    fileType := fileType
    embedding := env.embedJson (relPath ++ "\n" ++ String.mk (content.data.take 1000))
    imports := ie.1
    exports := ie.2 }

/-- `INSERT OR REPLACE INTO files` under `UNIQUE(repositoryId, path)`. -/
def upsertFileOp (row : FileRow) (s : Store) : Store :=
  if s.files.any (fun f => f.repositoryId == row.repositoryId && f.path == row.path) then
    { s with files := s.files.map fun f =>
        if f.repositoryId == row.repositoryId && f.path == row.path then row else f }
  else { s with files := s.files ++ [row] }

/-- `DELETE FROM files WHERE repositoryId = ?` (codebase-index.ts:209). -/
def deleteFilesOp (repoId : ℕ) (s : Store) : Store :=
  { s with files := s.files.filter fun f => !(f.repositoryId == repoId) }

/-- The per-file loop (codebase-index.ts:215-227): every failure inside
`indexFile` — unreadable file or a throwing insert — is caught, logged and
skipped; a file over 50000 characters is skipped inside `indexFile` but
still counted, because `indexFile` returns normally. -/
def cbIndexFiles (env : CbEnv) (repoId : ℕ) :
    List String → ℕ → Store → ℕ → Store × ℕ × ℕ
  | [], n, s, indexed => (s, n, indexed)
  | path :: rest, n, s, indexed =>
    match env.readFile path with
    | .error _ => cbIndexFiles env repoId rest n s indexed
    | .ok content =>
      if 50000 < content.length then cbIndexFiles env repoId rest n s (indexed + 1)
      else if env.dbFail n then cbIndexFiles env repoId rest (n + 1) s indexed
      else
        cbIndexFiles env repoId rest (n + 1)
          (upsertFileOp (fileRowOf env repoId path content) s) (indexed + 1)

/-- `UPDATE repositories SET lastCommitHash = ?, lastIndexed = ?,
totalFiles = ? WHERE id = ?` (codebase-index.ts:230-236); the hash may be
NULL when `log.latest` was missing. -/
def updateRepoMetaOp (repoId : ℕ) (hash : Option String) (now : String) (total : ℕ)
    (s : Store) : Store :=
  { s with repos := s.repos.map fun r =>
      if r.id = repoId then
        { r with lastCommitHash := hash, lastIndexed := some now, totalFiles := total }
      else r }

/-- `indexRepository` (codebase-index.ts:180-253): get-or-create the
repository row, clone, read the log, clear this repository's files, index
file by file (absorbing per-file failures), and only then update the
repository metadata; clone/log/delete/update failures propagate. -/
def cbIndexRepository (env : CbEnv) (repoName : String) (s : Store) :
    Store × Option String :=
  let rs := getOrCreateRepository s repoName env.now
  let repoId := rs.1
  let s0 := rs.2
  match env.cloneErr with
  | some e => (s0, some e)
  | none =>
    match env.logHash with
    | .error e => (s0, some e)
    | .ok currentHash =>
      if env.dbFail 0 then (s0, some "storage failure")
      else
        let s1 := deleteFilesOp repoId s0
        let res := cbIndexFiles env repoId env.files 1 s1 0
        if env.dbFail res.2.1 then (res.1, some "storage failure")
        else (updateRepoMetaOp repoId currentHash env.now res.2.2 res.1, none)

end CbIdx

namespace AdvIdx

theorem advIndexRepository_error_repos (env : AdvEnv) (repoName : String) (s : Store)
    (out : Store × Option String) (e : String)
    (hout : advIndexRepository env repoName s = out) (herr : out.2 = some e) :
    out.1.repos = s.repos ∨ out.1.repos = (getOrCreateRepository s repoName).2.repos := by
  rw [advIndexRepository] at hout
  split at hout
  · subst hout; exact Or.inl rfl
  · split at hout
    · subst hout; exact Or.inl rfl
    · dsimp only at hout
      split at hout
      · subst hout; exact Or.inr rfl
      · split at hout
        · subst hout; exact Or.inr rfl
        · split at hout
          · subst hout; exact Or.inr rfl
          · split at hout
            · rename_i s4 n4 t4 heq
              subst hout
              have hrep := advIndexFiles_repos env (getOrCreateRepository s repoName).1
                env.files 3
                (deleteFtsOp repoName
                  (deleteSymbolsOp (getOrCreateRepository s repoName).1
                    (deleteChunksOp (getOrCreateRepository s repoName).1
                      (getOrCreateRepository s repoName).2))) 0
              rw [heq] at hrep
              exact Or.inr hrep
            · rename_i s4 n4 t4 heq
              split at hout
              · subst hout
                have hrep := advIndexFiles_repos env (getOrCreateRepository s repoName).1
                  env.files 3
                  (deleteFtsOp repoName
                    (deleteSymbolsOp (getOrCreateRepository s repoName).1
                      (deleteChunksOp (getOrCreateRepository s repoName).1
                        (getOrCreateRepository s repoName).2))) 0
                rw [heq] at hrep
                exact Or.inr hrep
              · subst hout
                simp at herr

end AdvIdx

namespace CbIdx

theorem upsertFileOp_repos (row : FileRow) (s : Store) :
    (upsertFileOp row s).repos = s.repos := by
  rw [upsertFileOp]
  split <;> rfl

theorem cbIndexFiles_repos (env : CbEnv) (repoId : ℕ) :
    ∀ (files : List String) (n : ℕ) (s : Store) (indexed : ℕ),
      (cbIndexFiles env repoId files n s indexed).1.repos = s.repos := by
  intro files
  induction files with
  | nil => intro n s indexed; rfl
  | cons path rest ih =>
    intro n s indexed
    rw [cbIndexFiles]
    cases hr : env.readFile path with
    | error e => rw [ih]
    | ok content =>
      dsimp only
      by_cases hbig : 50000 < content.length
      · rw [if_pos hbig, ih]
      · rw [if_neg hbig]
        by_cases hdb : env.dbFail n = true
        · rw [if_pos hdb, ih]
        · rw [if_neg hdb, ih, upsertFileOp_repos]

theorem cbGetOrCreateRepository_repos (s : Store) (name now : String) :
    List.IsPrefix s.repos (getOrCreateRepository s name now).2.repos ∧
    ∀ r ∈ (getOrCreateRepository s name now).2.repos,
      r ∈ s.repos ∨ r.lastCommitHash = none := by
  rw [getOrCreateRepository]
  cases h : s.repos.find? (fun r => r.name == name) with
  | some r =>
    exact ⟨List.prefix_rfl, fun r hr => Or.inl hr⟩
  | none =>
    simp only
    constructor
    · exact ⟨_, rfl⟩
    · intro r hr
      rcases List.mem_append.1 hr with hr' | hr'
      · exact Or.inl hr'
      · rcases List.mem_singleton.1 hr' with rfl
        exact Or.inr rfl

theorem cbIndexRepository_error_repos (env : CbEnv) (repoName : String) (s : Store)
    (out : Store × Option String) (e : String)
    (hout : cbIndexRepository env repoName s = out) (herr : out.2 = some e) :
    out.1.repos = (getOrCreateRepository s repoName env.now).2.repos := by
  rw [cbIndexRepository] at hout
  dsimp only at hout
  split at hout
  · subst hout; rfl
  · split at hout
    · subst hout; rfl
    · split at hout
      · subst hout; rfl
      · split at hout
        · subst hout
          exact cbIndexFiles_repos env (getOrCreateRepository s repoName env.now).1
            env.files 1
            (deleteFilesOp (getOrCreateRepository s repoName env.now).1
              (getOrCreateRepository s repoName env.now).2) 0
        · subst hout
          simp at herr

end CbIdx

/-- C4.  In both indexers every pass-level failure — clone/log failure or
a storage failure that aborts the pass — leaves every pre-existing
repository row (in particular its stored commit identifier) unchanged: the
pass can only have appended a fresh hash-less row, and the metadata
update, the only write that touches commit identifiers, runs strictly
after all per-file writes succeed. -/
theorem C4_failed_pass_preserves_commit :
    (∀ (env : AdvIdx.AdvEnv) (repoName : String) (s : AdvIdx.Store) (e : String),
      (AdvIdx.advIndexRepository env repoName s).2 = some e →
      List.IsPrefix s.repos (AdvIdx.advIndexRepository env repoName s).1.repos ∧
      ∀ r ∈ (AdvIdx.advIndexRepository env repoName s).1.repos,
        r ∈ s.repos ∨ r.lastCommitHash = none) ∧
    (∀ (env : CbIdx.CbEnv) (repoName : String) (s : CbIdx.Store) (e : String),
      (CbIdx.cbIndexRepository env repoName s).2 = some e →
      List.IsPrefix s.repos (CbIdx.cbIndexRepository env repoName s).1.repos ∧
      ∀ r ∈ (CbIdx.cbIndexRepository env repoName s).1.repos,
        r ∈ s.repos ∨ r.lastCommitHash = none) := by
  constructor
  · intro env repoName s e herr
    have hgc := AdvIdx.getOrCreateRepository_repos s repoName
    rcases AdvIdx.advIndexRepository_error_repos env repoName s
      (AdvIdx.advIndexRepository env repoName s) e rfl herr with hre | hre
    · rw [hre]
      exact ⟨List.prefix_rfl, fun r hr => Or.inl hr⟩
    · rw [hre]
      exact hgc
  · intro env repoName s e herr
    have hgc := CbIdx.cbGetOrCreateRepository_repos s repoName env.now
    have hre := CbIdx.cbIndexRepository_error_repos env repoName s
      (CbIdx.cbIndexRepository env repoName s) e rfl herr
    rw [hre]
    exact hgc

/-- A clone failure for the C4 witness environments. -/
def c4AdvEnv : AdvIdx.AdvEnv :=
  { cloneErr := some "clone failed", headHash := .ok "new", files := [],
    readFile := fun _ => .error "unreadable", embedJson := fun _ => "[]",
    now := "t1", dbFail := fun _ => false }

def c4CbStore : CbIdx.Store :=
  { repos := [{ id := 1, name := "r", lastCommitHash := some "old",
                lastIndexed := some "t0", totalFiles := 0 }]
    files := [] }

def c4CbEnv : CbIdx.CbEnv :=
  { cloneErr := none, logHash := .error "log failed", files := [],
    readFile := fun _ => .error "unreadable", md5 := fun _ => "h",
    embedJson := fun _ => "[]", now := "t1", dbFail := fun _ => false }

/-- Witness for C4: both halves applied to concrete failing passes over a
store holding one already-indexed repository. -/
theorem C4_witness :
    (List.IsPrefix c2Store.repos (AdvIdx.advIndexRepository c4AdvEnv "r" c2Store).1.repos ∧
      ∀ r ∈ (AdvIdx.advIndexRepository c4AdvEnv "r" c2Store).1.repos,
        r ∈ c2Store.repos ∨ r.lastCommitHash = none) ∧
    (List.IsPrefix c4CbStore.repos (CbIdx.cbIndexRepository c4CbEnv "r" c4CbStore).1.repos ∧
      ∀ r ∈ (CbIdx.cbIndexRepository c4CbEnv "r" c4CbStore).1.repos,
        r ∈ c4CbStore.repos ∨ r.lastCommitHash = none) :=
  ⟨C4_failed_pass_preserves_commit.1 c4AdvEnv "r" c2Store "clone failed" (by decide),
   C4_failed_pass_preserves_commit.2 c4CbEnv "r" c4CbStore "log failed" (by decide)⟩


namespace CbIdx

/-- After `getOrCreateRepository`, the first row named `name` exists and
carries the returned id. -/
theorem getOrCreateRepository_find (s : Store) (name now : String) :
    ∃ r0, (getOrCreateRepository s name now).2.repos.find? (fun r => r.name == name) =
      some r0 ∧ r0.id = (getOrCreateRepository s name now).1 := by
  rw [getOrCreateRepository]
  cases h : s.repos.find? (fun r => r.name == name) with
  | some r =>
    dsimp only
    exact ⟨r, h, rfl⟩
  | none =>
    dsimp only
    refine ⟨{ id := nextRepoId s
              name := name
              lastCommitHash := none
              lastIndexed := some now
              totalFiles := 0 }, ?_, rfl⟩
    rw [List.find?_append, h]
    simp

/-- After a successful basic indexing pass whose `git log` reported hash
`h`, the repository row found by name stores `some h`. -/
theorem cbIndexRepository_success_hash (env : CbEnv) (repoName : String) (s : Store)
    (h : String) (hlog : env.logHash = .ok (some h))
    (hsucc : (cbIndexRepository env repoName s).2 = none) :
    ∃ r0, (cbIndexRepository env repoName s).1.repos.find?
        (fun r => r.name == repoName) = some r0 ∧ r0.lastCommitHash = some h := by
  rcases getOrCreateRepository_find s repoName env.now with ⟨r0, hfind, hid⟩
  rw [cbIndexRepository] at hsucc ⊢
  cases hc : env.cloneErr with
  | some e =>
    rw [hc] at hsucc
    simp at hsucc
  | none =>
    rw [hc] at hsucc
    rw [hlog] at hsucc ⊢
    dsimp only at hsucc ⊢
    by_cases hdb0 : env.dbFail 0 = true
    · rw [if_pos hdb0] at hsucc
      simp at hsucc
    · rw [if_neg hdb0] at hsucc ⊢
      set F := cbIndexFiles env (getOrCreateRepository s repoName env.now).1 env.files 1
          (deleteFilesOp (getOrCreateRepository s repoName env.now).1
            (getOrCreateRepository s repoName env.now).2) 0 with hF
      by_cases hdbn : env.dbFail F.2.1 = true
      · rw [if_pos hdbn] at hsucc
        simp at hsucc
      · rw [if_neg hdbn]
        have hs1 : F.1.repos = (getOrCreateRepository s repoName env.now).2.repos := by
          rw [hF]
          exact cbIndexFiles_repos env (getOrCreateRepository s repoName env.now).1
            env.files 1 (deleteFilesOp (getOrCreateRepository s repoName env.now).1
              (getOrCreateRepository s repoName env.now).2) 0
        rw [updateRepoMetaOp]
        dsimp only
        rw [hs1, List.find?_map]
        have hcomp : ((fun r : RepoRow => r.name == repoName) ∘ fun r : RepoRow =>
            if r.id = (getOrCreateRepository s repoName env.now).1 then
              { r with lastCommitHash := some h, lastIndexed := some env.now, totalFiles := F.2.2 }
            else r) = fun r : RepoRow => r.name == repoName := by
          funext r
          by_cases hr : r.id = (getOrCreateRepository s repoName env.now).1
          · simp only [Function.comp_apply, if_pos hr]
          · simp only [Function.comp_apply, if_neg hr]
        rw [hcomp, hfind]
        refine ⟨_, rfl, ?_⟩
        dsimp only [Option.map]
        rw [if_pos hid]

end CbIdx

/-- C5.  `needsUpdate` returns true when the repository was never indexed
(no row, or a row with a missing/empty stored hash), true when the current
commit cannot be determined, and otherwise compares the stored and current
identifiers; moreover, immediately after a successful `indexRepository`
whose log reported hash `h`, `needsUpdate` is false for `h` and true for
any different reported hash. -/
theorem C5_needsUpdate :
    (∀ (s : CbIdx.Store) (repoName : String) (gh : Except Unit String),
      s.repos.find? (fun r => r.name == repoName) = none →
      CbIdx.needsUpdate s repoName gh = true) ∧
    (∀ (s : CbIdx.Store) (repoName : String) (gh : Except Unit String) (r : CbIdx.RepoRow),
      s.repos.find? (fun r => r.name == repoName) = some r →
      r.lastCommitHash = none ∨ r.lastCommitHash = some "" →
      CbIdx.needsUpdate s repoName gh = true) ∧
    (∀ (s : CbIdx.Store) (repoName : String),
      CbIdx.needsUpdate s repoName (.error ()) = true) ∧
    (∀ (s : CbIdx.Store) (repoName : String) (r : CbIdx.RepoRow) (stored cur : String),
      s.repos.find? (fun r => r.name == repoName) = some r →
      r.lastCommitHash = some stored → stored ≠ "" →
      CbIdx.needsUpdate s repoName (.ok cur) = !(stored == cur)) ∧
    (∀ (env : CbIdx.CbEnv) (s : CbIdx.Store) (repoName h : String),
      env.logHash = .ok (some h) → h ≠ "" →
      (CbIdx.cbIndexRepository env repoName s).2 = none →
      CbIdx.needsUpdate (CbIdx.cbIndexRepository env repoName s).1 repoName (.ok h) = false ∧
      ∀ h2, h2 ≠ h →
        CbIdx.needsUpdate (CbIdx.cbIndexRepository env repoName s).1 repoName (.ok h2) = true) := by
  refine ⟨?_, ?_, ?_, ?_, ?_⟩
  · intro s repoName gh hfind
    rw [CbIdx.needsUpdate, hfind]
  · intro s repoName gh r hfind hh
    rw [CbIdx.needsUpdate, hfind]
    dsimp only
    rcases hh with hh | hh <;> rw [hh] <;> simp
  · intro s repoName
    rw [CbIdx.needsUpdate]
    cases hfind : s.repos.find? (fun r => r.name == repoName) with
    | none => rfl
    | some r =>
      dsimp only
      cases hh : r.lastCommitHash with
      | none => rfl
      | some stored =>
        dsimp only
        by_cases he : (stored == "") = true
        · rw [if_pos he]
        · rw [if_neg he]
  · intro s repoName r stored cur hfind hh hne
    rw [CbIdx.needsUpdate, hfind]
    dsimp only
    rw [hh]
    dsimp only
    rw [if_neg (by simp [hne])]
  · intro env s repoName h hlog hne hsucc
    rcases CbIdx.cbIndexRepository_success_hash env repoName s h hlog hsucc with ⟨r0, hfind, hh⟩
    constructor
    · rw [CbIdx.needsUpdate, hfind]
      dsimp only
      rw [hh]
      dsimp only
      rw [if_neg (by simp [hne])]
      simp
    · intro h2 hh2
      rw [CbIdx.needsUpdate, hfind]
      dsimp only
      rw [hh]
      dsimp only
      rw [if_neg (by simp [hne])]
      simp
      exact fun hc => hh2 hc.symm

/-- The store for the C5 witness: repository `r` indexed at commit
`aaa`. -/
def c5Store : CbIdx.Store :=
  { repos := [{ id := 1, name := "r", lastCommitHash := some "aaa",
                lastIndexed := some "t0", totalFiles := 0 }]
    files := [] }

/-- A successful basic indexing pass at commit `aaa` for the C5
witness. -/
def c5Env : CbIdx.CbEnv :=
  { cloneErr := none, logHash := .ok (some "aaa"), files := [],
    readFile := fun _ => .error "unreadable", md5 := fun _ => "h",
    embedJson := fun _ => "[]", now := "t1", dbFail := fun _ => false }

/-- Witness for C5: all the branch conjuncts and the integration conjunct
applied at concrete inputs. -/
theorem C5_witness :
    CbIdx.needsUpdate c5Store "missing" (.ok "aaa") = true ∧
    CbIdx.needsUpdate c5Store "r" (.error ()) = true ∧
    CbIdx.needsUpdate c5Store "r" (.ok "aaa") = !("aaa" == "aaa") ∧
    CbIdx.needsUpdate (CbIdx.cbIndexRepository c5Env "r" c5Store).1 "r" (.ok "aaa") = false ∧
    CbIdx.needsUpdate (CbIdx.cbIndexRepository c5Env "r" c5Store).1 "r" (.ok "bbb") = true := by
  refine ⟨?_, ?_, ?_, ?_, ?_⟩
  · exact C5_needsUpdate.1 c5Store "missing" (.ok "aaa") (by decide)
  · exact C5_needsUpdate.2.2.1 c5Store "r"
  · exact C5_needsUpdate.2.2.2.1 c5Store "r"
      { id := 1, name := "r", lastCommitHash := some "aaa",
        lastIndexed := some "t0", totalFiles := 0 } "aaa" "aaa" (by decide) rfl (by decide)
  · exact (C5_needsUpdate.2.2.2.2 c5Env c5Store "r" "aaa" rfl (by decide) (by decide)).1
  · exact (C5_needsUpdate.2.2.2.2 c5Env c5Store "r" "aaa" rfl (by decide) (by decide)).2
      "bbb" (by decide)

namespace AdvIdx

/-- JavaScript `str.endsWith(suffix)`. -/
def jsEndsWith (s suffix : String) : Bool :=
  suffix.data.isSuffixOf s.data

end AdvIdx

namespace CbIdx

/-! ### The scoring heuristics of `searchRelevantFiles`
(codebase-index.ts:406-571).  The base semantic term is the cosine
similarity of the stored embedding against the task embedding (0 when the
stored embedding is empty); every boost below is one of the additive terms
applied to it, in source order. -/

/-- Scanner for `/<q>([^<q>]+)<q>/g`; the fuel argument (always called
with the remaining length, which strictly bounds every recursive call)
only makes the recursion structural. -/
def quotedRunsAux (q : Char) : ℕ → List Char → List String
  | 0, _ => []
  | _, [] => []
  | fuel + 1, c :: rest =>
    if c == q then
      let body := rest.takeWhile (fun x => x != q)
      match rest.drop body.length with
      | _ :: tail =>
        if body.length = 0 then quotedRunsAux q fuel rest
        else String.mk (q :: body ++ [q]) :: quotedRunsAux q fuel tail
      | [] => []
    else quotedRunsAux q fuel rest

/-- Global matches of `/<q>([^<q>]+)<q>/g`: the full quoted runs,
including their quotes, as `String.match` returns them. -/
def quotedRuns (q : Char) (cs : List Char) : List String :=
  quotedRunsAux q cs.length cs

/-- `taskDescription.match(/'([^']+)'/g) || taskDescription.match(/"([^"]+)"/g)
|| []` (codebase-index.ts:486). -/
def quotedMatchesOf (task : String) : List String :=
  let singles := quotedRuns AdvIdx.squote task.data
  if singles.length != 0 then singles
  else
    let doubles := quotedRuns AdvIdx.dquote task.data
    if doubles.length != 0 then doubles else []

/-- `taskLower.includes('change') || taskLower.includes('replace') ||
taskLower.includes('update')` (codebase-index.ts:490). -/
def isChangeTask (task : String) : Bool :=
  let taskLower := AdvIdx.asciiLower task
  AdvIdx.jsIncludes taskLower "change" || AdvIdx.jsIncludes taskLower "replace" ||
    AdvIdx.jsIncludes taskLower "update"

/-- `isChangeTask ? [quotedMatches[0]] : quotedMatches`
(codebase-index.ts:491); the surrounding `length > 0` guard is absorbed
because checking no quotes adds no bonus. -/
def quotesToCheck (task : String) : List String :=
  let qm := quotedMatchesOf task
  if isChangeTask task then qm.take 1 else qm

/-- `quotedMatch.replace(/['"]/g, '').toLowerCase()`
(codebase-index.ts:494). -/
def cleanQuote (q : String) : String :=
  AdvIdx.asciiLower (String.mk (q.data.filter
    fun c => c != AdvIdx.squote && c != AdvIdx.dquote))

/-- The exact-quoted-text bonus term (codebase-index.ts:489-504): `+2.0`
for each checked quote whose cleaned text the lowercased file content
contains. -/
def quotedTextBonus (task content : String) : ℚ :=
  (quotesToCheck task).foldl (fun acc q =>
    if AdvIdx.jsIncludes (AdvIdx.asciiLower content) (cleanQuote q) then acc + 2
    else acc) 0

/-- The UI-task detector (codebase-index.ts:452-453). -/
def isUITask (task : String) : Bool :=
  let tl := AdvIdx.asciiLower task
  AdvIdx.jsIncludes tl "header" || AdvIdx.jsIncludes tl "topbar" ||
    AdvIdx.jsIncludes tl "navigation" || AdvIdx.jsIncludes tl "nav" ||
    AdvIdx.jsIncludes tl "title" || AdvIdx.jsIncludes tl "menu"

/-- The UI-task boost chain (codebase-index.ts:455-467). -/
def uiBoost (task path fileType : String) : ℚ :=
  if isUITask task then
    if path == "index.html" || AdvIdx.jsIncludes path "index.html" then 3
    else if AdvIdx.jsEndsWith path ".html" then 3 / 2
    else if fileType == "page" then 4 / 5
    else 0
  else 0

/-- The styling boost (codebase-index.ts:470-473). -/
def styleBoost (task fileType : String) : ℚ :=
  let tl := AdvIdx.asciiLower task
  if (AdvIdx.jsIncludes tl "style" || AdvIdx.jsIncludes tl "css" ||
      AdvIdx.jsIncludes tl "color") && fileType == "style" then 2 / 5
  else 0

/-- The general HTML-file boost (codebase-index.ts:476-479). -/
def htmlBoost (path : String) : ℚ :=
  if path == "index.html" || AdvIdx.jsIncludes path "index.html" ||
      AdvIdx.jsEndsWith path ".html" then 1 / 2
  else 0

/-- The per-word boost for change/replace/update tasks
(codebase-index.ts:507-515). -/
def wordBoost (task content : String) : ℚ :=
  if isChangeTask task then
    (AdvIdx.jsSplitWs (AdvIdx.asciiLower task)).foldl (fun acc w =>
      if decide (3 < w.length) && AdvIdx.jsIncludes (AdvIdx.asciiLower content) w then
        acc + 3 / 10
      else acc) 0
  else 0

/-- The component/API/page keyword boosts (codebase-index.ts:518-529). -/
def componentBoost (task fileType : String) : ℚ :=
  if AdvIdx.jsIncludes (AdvIdx.asciiLower task) "component" && fileType == "component" then
    3 / 10
  else 0

def apiBoost (task fileType : String) : ℚ :=
  if AdvIdx.jsIncludes (AdvIdx.asciiLower task) "api" && fileType == "api" then 3 / 10
  else 0

def pageBoost (task fileType : String) : ℚ :=
  if AdvIdx.jsIncludes (AdvIdx.asciiLower task) "page" && fileType == "page" then 3 / 10
  else 0

/-- The essential-config boost (codebase-index.ts:532-535). -/
def configBoost (path : String) : ℚ :=
  if path == "package.json" then 1 / 5 else 0

/-- The final score of one file in `searchRelevantFiles`
(codebase-index.ts:431-537): the base semantic similarity plus the
additive boost terms, in source order. -/
def cbSearchScore (semantic : ℚ) (task path fileType content : String) : ℚ :=
  semantic + uiBoost task path fileType + styleBoost task fileType + htmlBoost path +
    quotedTextBonus task content + wordBoost task content +
    componentBoost task fileType + apiBoost task fileType + pageBoost task fileType +
    configBoost path

end CbIdx

def c6sq : String := String.mk [AdvIdx.squote]

def c6Task : String :=
  "update the " ++ c6sq ++ "logo" ++ c6sq ++ " to " ++ c6sq ++ "Ben Tossell" ++ c6sq

def c6Task2 : String := "set the site title to " ++ c6sq ++ "Ben Tossell" ++ c6sq

/-- C6 counterexample: the query `update the 'logo' to 'Ben Tossell'`
contains the quoted phrase `'Ben Tossell'`, the file content contains the
substring "ben tossell" case-insensitively, and yet the quoted-text bonus
is 0: because the task contains "update", only the FIRST quoted match
(`'logo'`) is checked (codebase-index.ts:490-491). -/
theorem C6_counterexample :
    AdvIdx.jsIncludes (AdvIdx.asciiLower c6Task) "update" = true ∧
    (CbIdx.quotedMatchesOf c6Task).map CbIdx.cleanQuote = ["logo", "ben tossell"] ∧
    CbIdx.isChangeTask c6Task = true ∧
    AdvIdx.jsIncludes (AdvIdx.asciiLower "The Ben Tossell page") "ben tossell" = true ∧
    CbIdx.quotedTextBonus c6Task "The Ben Tossell page" = 0 := by
  decide

/-- C6 (amended): whenever the checked quote list of a task cleans to
exactly ["ben tossell"] (true for queries quoting Ben Tossell that are
not change/replace/update tasks, or where it is the first quote), a file
content containing "ben tossell" case-insensitively gets bonus +2.0 and
one that does not gets 0 from that term. -/
theorem C6_quotedTextBonus (task c1 c2 : String)
    (hq : (CbIdx.quotesToCheck task).map CbIdx.cleanQuote = ["ben tossell"])
    (h1 : AdvIdx.jsIncludes (AdvIdx.asciiLower c1) "ben tossell" = true)
    (h2 : AdvIdx.jsIncludes (AdvIdx.asciiLower c2) "ben tossell" = false) :
    CbIdx.quotedTextBonus task c1 = 2 ∧ CbIdx.quotedTextBonus task c2 = 0 := by
  cases hl : CbIdx.quotesToCheck task with
  | nil => rw [hl] at hq; simp at hq
  | cons q qs =>
    rw [hl] at hq
    simp only [List.map_cons, List.cons.injEq] at hq
    obtain ⟨hcq, hqs⟩ := hq
    have hqs0 : qs = [] := List.map_eq_nil_iff.mp hqs
    subst hqs0
    constructor
    · simp only [CbIdx.quotedTextBonus, hl, List.foldl_cons, List.foldl_nil, hcq, h1,
        if_true, zero_add]
    · simp only [CbIdx.quotedTextBonus, hl, List.foldl_cons, List.foldl_nil, hcq, h2,
        Bool.false_eq_true, if_false]

theorem C6_witness :
    CbIdx.quotedTextBonus c6Task2 "Welcome to Ben Tossell Industries" = 2 ∧
    CbIdx.quotedTextBonus c6Task2 "unrelated styles" = 0 :=
  C6_quotedTextBonus c6Task2 "Welcome to Ben Tossell Industries" "unrelated styles"
    (by decide) (by decide) (by decide)

namespace AdvIdx

/-! ### The read path: `searchRelevantChunks` and its three signals
(advanced-codebase-index.ts:398-506).  SQLite FTS matching/bm25 scoring,
the embedding model and `JSON.parse` are external capabilities. -/

variable {α : Type} [LinearOrderedField α]

/-- `Math.abs`. -/
def jsAbs (x : α) : α :=
  if x < 0 then -x else x

/-- `jsDiv` over an arbitrary ordered field: same semantics as the real
version (`none` = the NaN produced by a zero divisor). -/
def jsDivF (x y : α) : Option α :=
  if y = 0 then none else some (x / y)

/-- `dotProduct` accumulator of `cosineSimilarity`
(advanced-codebase-index.ts:636-638), over an arbitrary ordered field. -/
def dotProductF (a b : List α) : α :=
  ∑ i ∈ Finset.range a.length, a.getD i 0 * b.getD i 0

/-- `normA`/`normB` accumulator of `cosineSimilarity`. -/
def normSumF (a : List α) : α :=
  ∑ i ∈ Finset.range a.length, a.getD i 0 * a.getD i 0

/-- `cosineSimilarity` (advanced-codebase-index.ts:629-643) over an
arbitrary ordered field, with `Math.sqrt` supplied as the capability
`sqrtFn`; at `α = ℝ`, `sqrtFn = Real.sqrt` recovers `cosineSimilarity`. -/
def cosineSimilarityF (sqrtFn : α → α) (a b : List α) : Option α :=
  if a.length ≠ b.length then some 0
  else jsDivF (dotProductF a b) (sqrtFn (normSumF a) * sqrtFn (normSumF b))

/-- External capabilities of one query: SQLite's FTS5 engine (the
`chunks_fts MATCH ?` row ids with their `bm25(chunks_fts)` scores, in
bm25 order), whether the embedding model loaded, the model itself
(failures already folded to `[]` as in `generateEmbedding`'s catch),
`JSON.parse` on the stored embedding column, and `Math.sqrt`. -/
structure SearchEnv (α : Type) where
  ftsMatch : String → List (String × α)
  hasModel : Bool
  embed : String → List α
  parseEmb : String → Except Unit (List α)
  sqrtFn : α → α

/-- `generateEmbedding` (advanced-codebase-index.ts:615-627): `[]` without
a model, else the model applied to the first 512 characters. -/
def generateEmbedding (env : SearchEnv α) (text : String) : List α :=
  if env.hasModel then env.embed (String.mk (text.data.take 512)) else []

/-- `lexicalSearch` (advanced-codebase-index.ts:418-446): join the FTS
matches (in bm25 order) with this repository's chunks, LIMIT 50, then for
each row record `Math.abs(fts_score)` and the query terms the lowercased
chunk content contains. -/
def lexicalSearch (env : SearchEnv α) (s : Store) (repoId : ℕ) (query : String) :
    List (String × BM25Score α) :=
  let rows := ((env.ftsMatch query).flatMap fun p =>
    (s.chunks.filter fun c => c.id == p.1 && c.repositoryId == repoId).map
      fun c => (c.id, c.content, p.2)).take 50
  rows.foldl (fun results row =>
    let terms := jsSplitWs (asciiLower query)
    let termMatches := terms.filter fun t => jsIncludes (asciiLower row.2.1) t
    mapSet results row.1 ⟨jsAbs row.2.2, termMatches⟩) []

/-- `vectorSearch` (advanced-codebase-index.ts:448-474): empty without a
model; otherwise parse each stored embedding of the repository (skipping
parse failures), compute the cosine similarity against the query
embedding, and keep scores above 0.1 (the NaN of a zero-norm pair fails
that comparison, hence `none` is also skipped). -/
def vectorSearch (env : SearchEnv α) (s : Store) (repoId : ℕ) (query : String) :
    List (String × α) :=
  if !env.hasModel then []
  else
    let queryEmbedding := generateEmbedding env query
    (s.chunks.filter fun c => c.repositoryId == repoId).foldl (fun results c =>
      match env.parseEmb c.embedding with
      | .error _ => results
      | .ok chunkEmbedding =>
        match cosineSimilarityF env.sqrtFn queryEmbedding chunkEmbedding with
        | none => results
        | some similarity =>
          if 1 / 10 < similarity then mapSet results c.id similarity else results) []

/-- SQLite `LIKE '%<pat>%'`, case-insensitive for ASCII by default. -/
def likeContains (hay pat : String) : Bool :=
  jsIncludes (asciiLower hay) (asciiLower pat)

/-- `structuralSearch` (advanced-codebase-index.ts:476-506): symbols of
the repository whose name or context contains the query (LIKE) or whose
type equals it; each match adds a boost of 0.5, or 1.0 for an `element`
on a header query, or 0.8 for a `function` on a function query. -/
def structuralSearch (s : Store) (repoId : ℕ) (query : String) : List (String × α) :=
  let symbolMatches := s.symbols.flatMap fun sym =>
    if likeContains sym.name query || likeContains sym.context query ||
        sym.symbolType == query then
      (s.chunks.filter fun c => c.id == sym.chunkId && c.repositoryId == repoId).map
        fun c => (c.id, sym.symbolType)
    else []
  symbolMatches.foldl (fun results m =>
    let existingScore := (mapGet results m.1).getD 0
    let boost : α :=
      if jsIncludes (asciiLower query) "header" && m.2 == "element" then 1
      else if jsIncludes (asciiLower query) "function" && m.2 == "function" then 4 / 5
      else 1 / 2
    mapSet results m.1 (existingScore + boost)) []

/-- `searchRelevantChunks` (advanced-codebase-index.ts:398-416): resolve
the repository id via `getOrCreateRepository` (which INSERTS a row when
the name is unknown — the state it leaves behind is returned alongside
the results), run the three signals, fuse, and return the first `limit`
results. -/
def searchRelevantChunks (env : SearchEnv α) (s : Store) (repoName query : String)
    (limit : ℕ) : List (SearchResult α) × Store :=
  let rs := getOrCreateRepository s repoName
  let repoId := rs.1
  let s0 := rs.2
  let lexicalResults := lexicalSearch env s0 repoId query
  let vectorResults := vectorSearch env s0 repoId query
  let structuralResults := structuralSearch s0 repoId query
  ((fuseAndRerank lexicalResults vectorResults structuralResults query).take limit, s0)

end AdvIdx

def c9Env : AdvIdx.SearchEnv ℚ :=
  ⟨fun _ => [], false, fun _ => [], fun _ => .error (), fun _ => 0⟩

def c9Store : AdvIdx.Store := ⟨[], [], [], []⟩

def c9Store2 : AdvIdx.Store :=
  ⟨[{ id := 5
      name := "repo"
      lastCommitHash := some "h"
      lastIndexed := some "t"
      totalChunks := 2 }], [], [], []⟩

def c9FreshRow (s : AdvIdx.Store) (repoName : String) : AdvIdx.RepoRow :=
  { id := AdvIdx.nextRepoId s
    name := repoName
    lastCommitHash := none
    lastIndexed := none
    totalChunks := 0 }

/-- C9 counterexample: querying a repository that has no index record
creates one — on an empty store, `searchRelevantChunks` leaves behind a
fresh hash-less repository row, because `getOrCreateRepository` INSERTS
when the SELECT finds nothing (advanced-codebase-index.ts:645-651). -/
theorem C9_counterexample :
    (AdvIdx.searchRelevantChunks c9Env c9Store "repo" "query" 10).2 ≠ c9Store ∧
    (AdvIdx.searchRelevantChunks c9Env c9Store "repo" "query" 10).2.repos =
      [c9FreshRow c9Store "repo"] := by
  decide

/-- C9 (amended): a query never touches the chunks, symbols or FTS tables,
and never modifies an existing repository row; but it is not read-only:
when the repository name has no row, `getOrCreateRepository` inserts a
fresh hash-less one as a side effect of the query. -/
theorem C9_searchRelevantChunks {α : Type} [LinearOrderedField α]
    (env : AdvIdx.SearchEnv α) (s : AdvIdx.Store) (repoName query : String) (limit : ℕ) :
    (AdvIdx.searchRelevantChunks env s repoName query limit).2.chunks = s.chunks ∧
    (AdvIdx.searchRelevantChunks env s repoName query limit).2.symbols = s.symbols ∧
    (AdvIdx.searchRelevantChunks env s repoName query limit).2.fts = s.fts ∧
    ((s.repos.find? fun r => r.name == repoName).isSome = true →
      (AdvIdx.searchRelevantChunks env s repoName query limit).2 = s) ∧
    ((s.repos.find? fun r => r.name == repoName) = none →
      (AdvIdx.searchRelevantChunks env s repoName query limit).2.repos =
        s.repos ++ [c9FreshRow s repoName]) := by
  have hout : (AdvIdx.searchRelevantChunks env s repoName query limit).2 =
      (AdvIdx.getOrCreateRepository s repoName).2 := rfl
  rw [hout, AdvIdx.getOrCreateRepository]
  cases h : s.repos.find? (fun r => r.name == repoName) with
  | some r =>
    dsimp only
    exact ⟨rfl, rfl, rfl, fun _ => rfl, fun hc => by cases hc⟩
  | none =>
    dsimp only
    refine ⟨rfl, rfl, rfl, fun hc => by simp at hc, fun _ => rfl⟩

theorem C9_witness :
    (AdvIdx.searchRelevantChunks c9Env c9Store2 "repo" "query" 10).2 = c9Store2 :=
  (C9_searchRelevantChunks c9Env c9Store2 "repo" "query" 10).2.2.2.1 (by decide)

def c10Env : AdvIdx.SearchEnv ℚ :=
  ⟨fun _ => [], false, fun _ => [], fun _ => .error (), fun _ => 0⟩

def c10Store : AdvIdx.Store :=
  ⟨[{ id := 1
      name := "repo"
      lastCommitHash := some "h"
      lastIndexed := some "t"
      totalChunks := 1 }],
   [{ id := "c1"
      repositoryId := 1
      filePath := "a.js"
      content := "hello"
      chunkType := "block"
      language := "javascript"
      startLine := 1
      endLine := 1
      embedding := "[]"
      termFreq := [] }],
   [{ chunkId := "c1"
      name := "something"
      symbolType := "function"
      line := 1
      column := 0
      endLine := 1
      endColumn := 0
      context := "function something" }],
   []⟩

def c10Result : AdvIdx.SearchResult ℚ :=
  { chunk := none
    lexicalScore := 0
    vectorScore := 0
    structuralScore := 1 / 2
    fusedScore := 3 / 20
    reason := "structural match" }

/-- C10.  Every result of `searchRelevantChunks` carries the empty chunk
placeholder: `fuseAndRerank` pushes `chunk: \x7b\x7d as Chunk` ("will be
filled in later") and nothing on the return path ever fills it, so the
chunk field of every returned `SearchResult` is the empty object (`none`),
with only the scores and the reason populated. -/
theorem C10_chunk_placeholder {α : Type} [LinearOrderedField α]
    (env : AdvIdx.SearchEnv α) (s : AdvIdx.Store) (repoName query : String) (limit : ℕ)
    (r : AdvIdx.SearchResult α)
    (hr : r ∈ (AdvIdx.searchRelevantChunks env s repoName query limit).1) :
    r.chunk = none := by
  have h0 : r ∈ List.take limit (AdvIdx.fuseAndRerank
      (AdvIdx.lexicalSearch env (AdvIdx.getOrCreateRepository s repoName).2
        (AdvIdx.getOrCreateRepository s repoName).1 query)
      (AdvIdx.vectorSearch env (AdvIdx.getOrCreateRepository s repoName).2
        (AdvIdx.getOrCreateRepository s repoName).1 query)
      (AdvIdx.structuralSearch (AdvIdx.getOrCreateRepository s repoName).2
        (AdvIdx.getOrCreateRepository s repoName).1 query) query) := hr
  have h1 := List.mem_of_mem_take h0
  rw [AdvIdx.fuseAndRerank, AdvIdx.mem_stableSort, AdvIdx.fusedCandidates] at h1
  rcases List.mem_filterMap.1 h1 with ⟨cid, hcid, hsome⟩
  dsimp only at hsome
  split at hsome
  · cases hsome
    rfl
  · cases hsome

theorem C10_witness : c10Result.chunk = none :=
  C10_chunk_placeholder c10Env c10Store "repo" "thing" 10 c10Result (by
    have hlist : (AdvIdx.searchRelevantChunks c10Env c10Store "repo" "thing" 10).1 =
        [c10Result] := by
      simp +decide [AdvIdx.searchRelevantChunks, AdvIdx.getOrCreateRepository,
        AdvIdx.nextRepoId, AdvIdx.lexicalSearch, AdvIdx.vectorSearch,
        AdvIdx.structuralSearch, AdvIdx.likeContains, AdvIdx.jsIncludes, AdvIdx.hasInfix,
        AdvIdx.mapGet, AdvIdx.mapSet, AdvIdx.fuseAndRerank, AdvIdx.fusedCandidates,
        AdvIdx.candidateIds, AdvIdx.insertionUnion, AdvIdx.mkResult, AdvIdx.fusedScoreOf,
        AdvIdx.lexScoreOf, AdvIdx.vecScoreOf, AdvIdx.strucScoreOf, AdvIdx.normalizeScore,
        AdvIdx.jsMax, AdvIdx.jsMin, AdvIdx.explainScore, AdvIdx.stableSort,
        AdvIdx.insertStable, c10Env, c10Store, c10Result, List.find?, List.foldl,
        List.filterMap, List.filter, List.flatMap]
      norm_num [AdvIdx.insertStable, List.foldl]
      decide
    rw [hlist]
    exact List.mem_singleton.2 rfl)
